import Mathlib

/-!
Verification of the document ingestion and enrichment pipeline of the
efsora customer portal AI service.

The Python sources under `src/ai-service/src/app` are shallowly embedded:
pure functions become Lean functions, the nested extraction loops become
structural recursions threading the same state the Python threads
(`order` counters, the per-document dedup set), and the external
collaborators (the Bedrock vision model, the SHA-256 hash, the semantic
chunker, S3, Weaviate) become explicit function parameters or
environment records, as the spec treats them as black-box capabilities.
Fallible external calls are modelled with `Except`.
-/

/-- A metadata value as stored in a LangChain `Document.metadata` dict:
the pipeline stores strings, integers and (for missing image dimensions)
`None`. -/
inductive MetaVal where
  | str (s : String)
  | num (n : Nat)
  | none
  deriving DecidableEq, Repr

/-- Metadata is an insertion-ordered association list, mirroring the dict
literals the extractors build. -/
abbrev Metadata := List (String × MetaVal)

/-- `m.get(k)` on a metadata dict. -/
def metaLookup (m : Metadata) (k : String) : Option MetaVal :=
  (m.find? (fun kv => kv.1 == k)).map (·.2)

/-- `m.get(k, d)` on a metadata dict. -/
def metaGetD (m : Metadata) (k : String) (d : MetaVal) : MetaVal :=
  (metaLookup m k).getD d

/-- A LangChain `Document`: a text payload plus metadata. -/
structure Document where
  page_content : String
  metadata : Metadata
  deriving DecidableEq, Repr

/-- A table bounding box `(x0, y0, x1, y1)` as returned by pdfplumber.
Coordinates are modelled as rationals (the Python floats of the layout
detector enter only through the comparisons below). -/
structure BBox where
  x0 : ℚ
  y0 : ℚ
  x1 : ℚ
  y1 : ℚ
  deriving DecidableEq, Repr

/-- One text block of `page.get_text("blocks")`: the well-formed
5+-tuples `(x0, y0, x1, y1, text, ...)` PyMuPDF returns, so the
`len(block) < 5` guards of the source are vacuous here. -/
structure Block where
  x0 : ℚ
  y0 : ℚ
  x1 : ℚ
  y1 : ℚ
  text : String
  deriving DecidableEq, Repr

/-- Outcome of `pdfplumber`'s `page.find_tables()`: a list of tables
(kept as their bounding boxes) or a raised exception. -/
inductive TableFind where
  | found (bboxes : List BBox)
  | failure (msg : String)
  deriving DecidableEq, Repr

/-- One embedded raster image of a page: the dict
`pdf_doc.extract_image(xref)` yields for an entry of
`page.get_images(full=True)`. `ext`, `width` and `height` model the
`.get` calls that may find the key missing. -/
structure PdfImage where
  bytes : List Nat
  ext : Option String
  width : Option Nat
  height : Option Nat
  deriving DecidableEq, Repr

/-- One page of a PDF, carrying the views the extractors read:
PyMuPDF text blocks, the pdfplumber table-detection outcome, the
rendered page image (`pdf_to_base64_images` payload), the embedded
raster images and the plain `get_text("text")` string. -/
structure PdfPage where
  blocks : List Block
  findTables : TableFind
  render : String
  images : List PdfImage
  rawText : String
  deriving DecidableEq, Repr

/-- A PDF document: its path and its pages. -/
structure Pdf where
  path : String
  pages : List PdfPage
  deriving DecidableEq, Repr

/-- The Bedrock vision client (`build_bedrock_vision_client`), reduced to
its two uses: `reconstruct` is the response text of `_process_with_llm`
for a batch of page images, `describe` the response text of the
captioning prompt for one image. Both model the raw model output, before
the `.strip()` the callers apply. -/
structure VisionLLM where
  reconstruct : List String → String
  describe : List Nat → String

/-- Python whitespace (ASCII) for `str.strip()`. -/
def pyIsSpace (c : Char) : Bool :=
  c == ' ' || c == '\t' || c == '\n' || c == '\r' || c == '\x0b' || c == '\x0c'

/-- Python `str.strip()`: drop leading and trailing whitespace. -/
def pyStrip (s : String) : String :=
  String.mk (((s.data.dropWhile pyIsSpace).reverse.dropWhile pyIsSpace).reverse)

/-- Split a character list at every occurrence of `sep`. -/
def splitCharAux (sep : Char) : List Char → List (List Char)
  | [] => [[]]
  | c :: rest =>
    match splitCharAux sep rest with
    | [] => [[]]
    | g :: gs => if c == sep then [] :: g :: gs else (c :: g) :: gs

/-- Python `s.split(sep)` for a one-character separator. -/
def splitChar (sep : Char) (s : String) : List String :=
  (splitCharAux sep s.data).map (fun l => String.mk l)

/-- Python `str.lower()` (ASCII). -/
def pyLower (s : String) : String :=
  String.mk (s.data.map Char.toLower)

/-- Python `s[:n]`: the first `n` code points. -/
def strTake (s : String) (n : Nat) : String :=
  String.mk (s.data.take n)

/-! ## `extract_table.py` -/

/-- `pdf_to_base64_images`: one rendered page image per page, in page
order (the zoom factor only affects pixel content, which the `render`
payload already stands for). -/
def pdf_to_base64_images (pdf : Pdf) : List String :=
  pdf.pages.map (·.render)

/-- Whether the block center `(xc, yc)` lies inside the bounding box. -/
def centerInBBox (xc yc : ℚ) (bb : BBox) : Bool :=
  decide (bb.x0 ≤ xc) && decide (xc ≤ bb.x1) &&
    decide (bb.y0 ≤ yc) && decide (yc ≤ bb.y1)

/-- `_block_outside_any_bbox`: True if the block center is outside all
provided bounding boxes (with the source's early `True` for an empty
bbox list). -/
def block_outside_any_bbox (block : Block) (bboxes : List BBox) : Bool :=
  if bboxes.isEmpty then true
  else
    let xc := (block.x0 + block.x1) / 2
    let yc := (block.y0 + block.y1) / 2
    bboxes.all (fun bb => !(centerInBBox xc yc bb))

/-- `_get_table_bboxes`: table bounding boxes of a page, or `[]` when
`find_tables` raises. -/
def get_table_bboxes (p : PdfPage) : List BBox :=
  match p.findTables with
  | .failure _ => []
  | .found bboxes => bboxes

/-- `_extract_page_text_excluding_tables`: keep the blocks with
non-blank text whose center is outside every table bbox, join their
stripped texts with newlines, `""` when none remain. -/
def extract_page_text_excluding_tables (p : PdfPage) (table_bboxes : List BBox) : String :=
  let filtered_blocks :=
    (p.blocks.filter (fun b =>
      !(pyStrip b.text == "") && block_outside_any_bbox b table_bboxes)).map
      (fun b => pyStrip b.text)
  if filtered_blocks.isEmpty then "" else String.intercalate "\n" filtered_blocks

/-- The page-text `Document` `_append_page_text_docs` emits for one page
(`page_idx` 0-based, as in the source; the stored `page` is 1-based). -/
def pageDoc (pdfPath : String) (page_idx order_index : Nat) (text : String) : Document :=
  { page_content := text
    metadata := [("type", .str "page"), ("source_pdf", .str pdfPath),
      ("source", .str pdfPath), ("page", .num (page_idx + 1)),
      ("order", .num order_index)] }

/-- The loop body of `_append_page_text_docs` over the (0-based index,
page) pairs of one batch: emit a `pageDoc` per page with non-empty
excluded-table text, advancing the order counter once per emitted doc.
Returns the emitted docs and the final counter. -/
def pageTextDocsAux (pdfPath : String) : List (Nat × PdfPage) → Nat → List Document × Nat
  | [], order_index => ([], order_index)
  | (page_idx, p) :: rest, order_index =>
    let table_bboxes := get_table_bboxes p
    let text := extract_page_text_excluding_tables p table_bboxes
    if text == "" then pageTextDocsAux pdfPath rest order_index
    else
      let r := pageTextDocsAux pdfPath rest (order_index + 1)
      (pageDoc pdfPath page_idx order_index text :: r.1, r.2)

/-- `_append_page_text_docs` for the pages `batch_start ≤ i < batch_end`. -/
def append_page_text_docs (pdf : Pdf) (batch_start batch_end order_index : Nat) :
    List Document × Nat :=
  pageTextDocsAux pdf.path
    ((pdf.pages.enum.drop batch_start).take (batch_end - batch_start)) order_index

/-- The table `Document` `_build_tables_doc_for_batch` emits for a batch. -/
def tableDoc (pdfPath : String) (page_start page_end order_index batch_size zoom : Nat)
    (markdown : String) : Document :=
  { page_content := markdown
    metadata := [("type", .str "table"), ("source_pdf", .str pdfPath),
      ("source", .str pdfPath), ("page_start", .num page_start),
      ("page_end", .num page_end), ("order", .num order_index),
      ("batch_size", .num batch_size), ("zoom", .num zoom)] }

/-- `_build_tables_doc_for_batch`: slice the rendered pages of the batch,
call the vision model (`_process_with_llm` strips the response), and emit
one table doc unless the slice or the stripped markup is empty. -/
def build_tables_doc_for_batch (pdfPath : String) (base64_images : List String)
    (batch_start batch_end page_start page_end batch_size zoom : Nat)
    (llm : VisionLLM) (order_index : Nat) : Option Document :=
  let batch_images := (base64_images.drop batch_start).take (batch_end - batch_start)
  if batch_images.isEmpty then Option.none
  else
    let markdown_output := pyStrip (llm.reconstruct batch_images)
    if markdown_output == "" then Option.none
    else some (tableDoc pdfPath page_start page_end order_index batch_size zoom markdown_output)

/-- The batch start offsets of `range(0, total_pages, batch_size)`
(defined for `batch_size > 0`; Python raises on step 0). -/
def batchStarts (total_pages batch_size : Nat) : List Nat :=
  (List.range ((total_pages + batch_size - 1) / batch_size)).map (· * batch_size)

/-- The per-batch step of `extract_tables_and_text_in_order`: append the
batch's page-text docs, then (when reconstruction is on) the batch's
table doc, threading the `order` counter. -/
def extractBatchStep (pdf : Pdf) (batch_size zoom : Nat) (llm : VisionLLM)
    (reconstruct_with_llm : Bool) (acc : List Document × Nat) (batch_start : Nat) :
    List Document × Nat :=
  let total_pages := pdf.pages.length
  let batch_end := min (batch_start + batch_size) total_pages
  let page_start := batch_start + 1
  let page_end := batch_end
  let r := append_page_text_docs pdf batch_start batch_end acc.2
  let docs := acc.1 ++ r.1
  if reconstruct_with_llm then
    match build_tables_doc_for_batch pdf.path (pdf_to_base64_images pdf)
        batch_start batch_end page_start page_end batch_size zoom llm r.2 with
    | some table_doc => (docs ++ [table_doc], r.2 + 1)
    | Option.none => (docs, r.2)
  else (docs, r.2)

/-- `extract_tables_and_text_in_order`: page text (excluding table
regions) and per-batch reconstructed tables, in reading order, with the
`order` counter threaded across all batches starting from 0. -/
def extract_tables_and_text_in_order (pdf : Pdf) (batch_size zoom : Nat)
    (llm : VisionLLM) (reconstruct_with_llm : Bool) : List Document :=
  ((batchStarts pdf.pages.length batch_size).foldl
    (extractBatchStep pdf batch_size zoom llm reconstruct_with_llm) ([], 0)).1

/-! ## `extract_images.py` -/

/-- A side effect of the image extractor: one vision-model caption call
(`_describe_image_bytes_with_llm`) or one disk write (`save_binary_file`
at the given destination path). -/
inductive Effect where
  | caption (bytes : List Nat)
  | write (path : String) (bytes : List Nat)
  deriving DecidableEq, Repr

/-- `os.path.basename`. -/
def pathBasename (p : String) : String :=
  (splitChar '/' p).getLastD p

/-- The stem of `os.path.splitext(os.path.basename(p))[0]` (names with a
single leading dot are not modelled; the pipeline names PDFs normally). -/
def pathStem (p : String) : String :=
  let base := pathBasename p
  match splitChar '.' base with
  | [] => base
  | [s] => s
  | parts => String.intercalate "." parts.dropLast

/-- `_image_name`: deterministic filename for a stored image. -/
def image_name (pdfPath : String) (page_index image_index : Nat)
    (image_ext : Option String) : String :=
  let ext := image_ext.getD "png"
  pathStem pdfPath ++ "_p" ++ toString (page_index + 1) ++ "_img" ++
    toString (image_index + 1) ++ "." ++ ext

/-- `_page_text_snippet`: stripped page text capped at the configured
limit (`PAGE_TEXT_SNIPPET_LIMIT`). -/
def page_text_snippet (p : PdfPage) (limit : Nat) : String :=
  let text := pyStrip p.rawText
  if text == "" then "" else strTake text limit

/-- The image `Document` the `some` branch of
`_build_image_doc_from_pdf_image` returns. -/
def imageDoc (pdfPath : String) (page_index : Nat) (description image_path
    page_text_snippet : String) (width height : Option Nat) (img_hash : String) : Document :=
  { page_content := description
    metadata := [("type", .str "image"), ("source_pdf", .str pdfPath),
      ("source", .str pdfPath), ("page", .num (page_index + 1)),
      ("image_path", .str image_path),
      ("page_text_snippet", .str page_text_snippet),
      ("image_width", match width with | some w => .num w | Option.none => .none),
      ("image_height", match height with | some h => .num h | Option.none => .none),
      ("image_hash", .str img_hash)] }

/-- `_build_image_doc_from_pdf_image`: skip empty byte streams silently,
skip hashes already in the per-document dedup set, otherwise caption the
image, persist it and build the `Document`. `imageHash` stands for the
SHA-256 hex digest of `_image_hash`. Returns the optional doc, the
effects performed and the updated dedup set. -/
def build_image_doc_from_pdf_image (imageHash : List Nat → String) (llm : VisionLLM)
    (pdfPath : String) (page_index image_index : Nat) (page_text_snippet : String)
    (img : PdfImage) (output_dir : String) (seen_hashes : List String) :
    Option Document × List Effect × List String :=
  let image_bytes := img.bytes
  if image_bytes.isEmpty then (Option.none, [], seen_hashes)
  else
    let img_hash := imageHash image_bytes
    if seen_hashes.contains img_hash then (Option.none, [], seen_hashes)
    else
      let seen_hashes := seen_hashes ++ [img_hash]
      let image_ext := img.ext.getD "png"
      let description := pyStrip (llm.describe image_bytes)
      let name := image_name pdfPath page_index image_index (some image_ext)
      let image_path := output_dir ++ "/" ++ name
      (some (imageDoc pdfPath page_index description image_path page_text_snippet
          img.width img.height img_hash),
        [Effect.caption image_bytes, Effect.write image_path image_bytes],
        seen_hashes)

/-- The inner loop of `build_image_docs_from_pdf_with_ai` over the
(0-based index, image) entries of one page, threading the dedup set and
collecting docs and effects in source order. -/
def imagePageScan (imageHash : List Nat → String) (llm : VisionLLM) (pdfPath : String)
    (output_dir : String) (page_index : Nat) (snippet : String) :
    List (Nat × PdfImage) → List String → List Document × List Effect × List String
  | [], seen => ([], [], seen)
  | (image_index, img) :: rest, seen =>
    let r := build_image_doc_from_pdf_image imageHash llm pdfPath page_index image_index
      snippet img output_dir seen
    let rec' := imagePageScan imageHash llm pdfPath output_dir page_index snippet rest r.2.2
    (r.1.toList ++ rec'.1, r.2.1 ++ rec'.2.1, rec'.2.2)

/-- The outer loop of `build_image_docs_from_pdf_with_ai` over the
(0-based index, page) pairs of the document. -/
def imagePagesScan (imageHash : List Nat → String) (llm : VisionLLM) (pdfPath : String)
    (output_dir : String) (snippetLimit : Nat) :
    List (Nat × PdfPage) → List String → List Document × List Effect × List String
  | [], seen => ([], [], seen)
  | (page_index, p) :: rest, seen =>
    let snippet := page_text_snippet p snippetLimit
    let r := imagePageScan imageHash llm pdfPath output_dir page_index snippet
      p.images.enum seen
    let rec' := imagePagesScan imageHash llm pdfPath output_dir snippetLimit rest r.2.2
    (r.1 ++ rec'.1, r.2.1 ++ rec'.2.1, rec'.2.2)

/-- `build_image_docs_from_pdf_with_ai`: walk the document page by page
and image by image with a dedup set created fresh (`seen_hashes = ∅`)
for this call, returning the image docs and the caption/write effects
performed. -/
def build_image_docs_from_pdf_with_ai (imageHash : List Nat → String) (llm : VisionLLM)
    (snippetLimit : Nat) (pdf : Pdf) (output_dir : String) :
    List Document × List Effect :=
  let r := imagePagesScan imageHash llm pdf.path output_dir snippetLimit pdf.pages.enum []
  (r.1, r.2.1)

/-! ## `ingestion_operations.py` -/

/-- `ingest_pdf`: ordered table/text docs first, image docs appended
after, for one document (source defaults: `batch_size = 5`, `zoom = 3`,
`reconstruct_with_llm = True`, same vision client for both passes). -/
def ingest_pdf (imageHash : List Nat → String) (llm : VisionLLM) (snippetLimit : Nat)
    (pdf : Pdf) (output_dir : String) : List Document :=
  extract_tables_and_text_in_order pdf 5 3 llm true ++
    (build_image_docs_from_pdf_with_ai imageHash llm snippetLimit pdf output_dir).1

/-- A log line emitted through `ctx.logger`. -/
inductive LogMsg where
  | info (msg : String)
  | error (msg : String)
  deriving DecidableEq, Repr

/-- The text of a log line. -/
def LogMsg.msg : LogMsg → String
  | .info m => m
  | .error m => m

/-- The outcome of attempting `ingest_pdf` on one file of the batch:
the enriched docs, or the message of the exception the attempt raised
(file-system, model or loader failures of the real call). -/
inductive IngestOutcome where
  | ok (docs : List Document)
  | failed (msg : String)
  deriving DecidableEq, Repr

/-- `load_documents`: attempt each globbed PDF independently, catching a
failed ingestion (that file contributes no docs, an error line is
logged) and always completing with the docs of the successful files plus
the final summary log line. -/
def load_documents (files : List (String × IngestOutcome)) (data_dir : String) :
    List Document × List LogMsg :=
  let r := files.foldl (fun (acc : List Document × List LogMsg) file =>
    match file.2 with
    | .ok enriched_docs =>
      (acc.1 ++ enriched_docs,
        acc.2 ++ [.info ("Enriched " ++ file.1 ++ " with " ++
          toString enriched_docs.length ++ " table/text/image documents")])
    | .failed exc =>
      (acc.1, acc.2 ++ [.error ("Failed to load/enrich " ++ file.1 ++ ": " ++ exc)]))
    ([], [])
  (r.1, r.2 ++ [.info (" Loaded " ++ toString r.1.length ++ " raw documents from " ++
    data_dir)])

/-- The external `SemanticChunker(max_tokens).chunk` capability: maps a
primitive list of `(text, metadata)` dicts to merged chunks of the same
shape (the token budget is part of the capability). -/
abbrev SemChunk := List (String × Metadata) → List (String × Metadata)

/-- `build_semantic_chunks_per_doc`: chunk each doc separately and force
each output chunk's metadata to the single key `source`, taken from the
owning doc (default `"unknown"`). -/
def build_semantic_chunks_per_doc (chunker : SemChunk) (all_docs : List Document) :
    List Document :=
  all_docs.foldl (fun split_docs doc =>
    let primitive := [(doc.page_content, doc.metadata)]
    let merged_chunks := chunker primitive
    let src := metaGetD doc.metadata "source" (.str "unknown")
    split_docs ++ merged_chunks.map (fun merged =>
      { page_content := merged.1, metadata := [("source", src)] })) []

/-! ## `infrastructure/weaviate/collection.py` -/

/-- The configuration of a Weaviate collection as this pipeline creates
it: description, property schema (name, data type) and the vector
distance metric the collection was created with. -/
structure WCollection where
  description : String
  properties : List (String × String)
  distance_metric : String
  deriving DecidableEq, Repr

/-- The collections of the external Weaviate instance, keyed by name. -/
abbrev WeaviateState := List (String × WCollection)

/-- The external client's `client.collections.create`: appends a new
collection. The source passes no vector index configuration
(`vectorizer_config=Configure.Vectorizer.none()` only), so the created
collection gets the Weaviate server's default vector distance metric,
which is cosine; the model records that default explicitly. -/
def weaviateCreate (s : WeaviateState) (name description : String)
    (properties : List (String × String)) : WeaviateState :=
  s ++ [(name,
    { description := description
      properties := properties
      distance_metric := "cosine" })]

/-- `client.collections.list_all()` keys. -/
def weaviateListAll (s : WeaviateState) : List String :=
  s.map (·.1)

/-- `ensure_weaviate_collection`: create the collection with the
pipeline's fixed schema if its name is not among the existing ones,
otherwise change nothing. -/
def ensure_weaviate_collection (s : WeaviateState) (name : String) : WeaviateState :=
  let existing := weaviateListAll s
  if !(existing.contains name) then
    weaviateCreate s name "Efsora document collection"
      [("content", "TEXT"), ("source", "TEXT")]
  else s

/-! ## `document_embedding_service.py` -/

/-- `EmbedDocumentStage`. -/
inductive EmbedDocumentStage where
  | downloading
  | loading
  | chunking
  | embedding
  | storing
  | completed
  | error
  deriving DecidableEq, Repr

/-- `EmbedDocumentProgressEvent` (defaults as in the pydantic model). -/
structure ProgressEvent where
  stage : EmbedDocumentStage
  progress_percent : Nat
  message : String
  chunks_processed : Nat := 0
  total_chunks : Nat := 0
  document_id : Option String := Option.none
  error_code : Option String := Option.none
  deriving DecidableEq, Repr

/-- Python's `pat in s` on strings: contiguous substring test. -/
def strContains (s pat : String) : Bool :=
  decide (List.IsInfix pat.data s.data)

/-- The error-code classification of the `except` block of
`embed_document_with_progress`. -/
def classify_error_code (e : String) : String :=
  if strContains e "S3" || strContains (pyLower e) "download" then "S3_DOWNLOAD_ERROR"
  else if strContains e "Unsupported file type" then "UNSUPPORTED_FILE_TYPE"
  else if strContains (pyLower e) "weaviate" then "WEAVIATE_ERROR"
  else "EMBED_ERROR"

/-- The single `error` event the `except` block yields: the exception
message, the classified code, and a hard-coded `progress_percent = 0`. -/
def errorEvent (e : String) : ProgressEvent :=
  { stage := .error
    progress_percent := 0
    message := e
    error_code := some (classify_error_code e) }

/-- `chunk_document`: chunk each loaded doc separately through the
semantic chunker and force each output chunk's metadata to the single
key `source`, set to the caller-supplied `source_name`. -/
def chunk_document (chunker : SemChunk) (docs : List Document) (source_name : String) :
    List Document :=
  docs.foldl (fun split_docs doc =>
    let primitive := [(doc.page_content, doc.metadata)]
    let merged_chunks := chunker primitive
    split_docs ++ merged_chunks.map (fun merged =>
      { page_content := merged.1, metadata := [("source", .str source_name)] })) []

/-- The environment of one `embed_document_with_progress` run: the
outcomes of the external calls (S3 download, document loader, per-chunk
embedding model call, collection ensure, per-record insert), the
semantic chunker capability, the S3 key and the generated document id.
An `Except.error` is the exception that call raises. -/
structure PipelineEnv where
  download : Except String Unit
  load : Except String (List Document)
  chunker : SemChunk
  s3Key : String
  embed : String → Except String (List ℚ)
  ensure : Except String Unit
  insert : String → MetaVal → Except String Unit
  documentId : String

/-- The embedding-stage progress value `30 + int((i + 1) / total * 60)`.
The source computes the ratio in floating point; the model uses the
exact rational floor. Both are monotone in `i` and agree at the last
chunk (`total / total * 60 = 60`), which is all the spec relies on. -/
def embeddingProgress (total i : Nat) : Nat :=
  30 + (i + 1) * 60 / total

/-- The embedding loop of the pipeline: one `embed_query` call per
chunk, a progress event every 5 chunks and on the last chunk; stops at
the first raised exception, returning the events yielded before it and
the exception. -/
def embedLoopAux (embed : String → Except String (List ℚ)) (total : Nat) :
    List String → Nat → List ProgressEvent × Option String
  | [], _ => ([], Option.none)
  | c :: rest, i =>
    match embed c with
    | .error e => ([], some e)
    | .ok _ =>
      let evs := if (i + 1) % 5 == 0 || i == total - 1 then
          [{ stage := .embedding
             progress_percent := embeddingProgress total i
             message := "Generated embeddings for " ++ toString (i + 1) ++ "/" ++
               toString total ++ " chunks"
             chunks_processed := i + 1
             total_chunks := total }]
        else []
      let r := embedLoopAux embed total rest (i + 1)
      (evs ++ r.1, r.2)

/-- The storing loop: one `collection.data.insert` per chunk with the
`content` and `source` properties; stops at the first raised exception. -/
def insertLoop (insert : String → MetaVal → Except String Unit) (s3Key : String) :
    List Document → Option String
  | [] => Option.none
  | d :: rest =>
    match insert d.page_content (metaGetD d.metadata "source" (.str s3Key)) with
    | .error e => some e
    | .ok _ => insertLoop insert s3Key rest

/-- `embed_document_with_progress`: the full event stream of one run.
Stage events are yielded in source order; any exception from an external
call aborts the `try` body and the `except` block yields the single
terminal `error` event (the `finally` cleanup yields nothing). -/
def embed_document_with_progress (env : PipelineEnv) : List ProgressEvent :=
  let e0 : ProgressEvent :=
    { stage := .downloading
      progress_percent := 0
      message := "Downloading document from S3..." }
  match env.download with
  | .error e => [e0, errorEvent e]
  | .ok _ =>
    let e1 : ProgressEvent :=
      { stage := .downloading
        progress_percent := 10
        message := "Document downloaded successfully" }
    let e2 : ProgressEvent :=
      { stage := .loading
        progress_percent := 10
        message := "Loading and parsing document..." }
    match env.load with
    | .error e => [e0, e1, e2, errorEvent e]
    | .ok docs =>
      let nDocs := docs.length
      let e3 : ProgressEvent :=
        { stage := .loading
          progress_percent := 20
          message := "Loaded " ++ toString nDocs ++ " pages/sections" }
      let e4 : ProgressEvent :=
        { stage := .chunking
          progress_percent := 20
          message := "Splitting document into semantic chunks..." }
      let source_name := pathBasename env.s3Key
      let split_docs := chunk_document env.chunker docs source_name
      let total_chunks := split_docs.length
      let e5 : ProgressEvent :=
        { stage := .chunking
          progress_percent := 30
          message := "Created " ++ toString total_chunks ++ " chunks"
          total_chunks := total_chunks }
      let e6 : ProgressEvent :=
        { stage := .embedding
          progress_percent := 30
          message := "Generating embeddings..."
          total_chunks := total_chunks }
      let hd := [e0, e1, e2, e3, e4, e5, e6]
      let r := embedLoopAux env.embed total_chunks (split_docs.map (·.page_content)) 0
      match r.2 with
      | some e => hd ++ r.1 ++ [errorEvent e]
      | Option.none =>
        let e7 : ProgressEvent :=
          { stage := .storing
            progress_percent := 90
            message := "Storing embeddings in vector database..."
            chunks_processed := total_chunks
            total_chunks := total_chunks }
        match env.ensure with
        | .error e => hd ++ r.1 ++ [e7, errorEvent e]
        | .ok _ =>
          match insertLoop env.insert env.s3Key split_docs with
          | some e => hd ++ r.1 ++ [e7, errorEvent e]
          | Option.none =>
            let e8 : ProgressEvent :=
              { stage := .completed
                progress_percent := 100
                message := "Document embedded successfully"
                chunks_processed := total_chunks
                total_chunks := total_chunks
                document_id := some env.documentId }
            hd ++ r.1 ++ [e7, e8]

/-- The first exception raised during a run, `none` for a successful
run; mirrors the pipeline's control flow without the event bookkeeping. -/
def runError (env : PipelineEnv) : Option String :=
  match env.download with
  | .error e => some e
  | .ok _ =>
    match env.load with
    | .error e => some e
    | .ok docs =>
      let split_docs := chunk_document env.chunker docs (pathBasename env.s3Key)
      match (embedLoopAux env.embed split_docs.length
          (split_docs.map (·.page_content)) 0).2 with
      | some e => some e
      | Option.none =>
        match env.ensure with
        | .error e => some e
        | .ok _ => insertLoop env.insert env.s3Key split_docs

/-! ## Helper notions for the theorems -/

/-- The `order` metadata of a unit, when it carries one. -/
def docOrder (d : Document) : Option MetaVal :=
  metaLookup d.metadata "order"

/-- A unit with its `order` metadata dropped (all other metadata kept). -/
def eraseOrder (d : Document) : Document :=
  { page_content := d.page_content
    metadata := d.metadata.filter (fun kv => !(kv.1 == "order")) }

/-- The `order` values `s, s+1, ..., s+n-1`, as metadata lookups. -/
def enumOrders (s n : Nat) : List (Option MetaVal) :=
  (List.range' s n).map (fun k => some (MetaVal.num k))

/-- The units one batch contributes, stated declaratively and without
`order` values: one page-text unit per page of the batch whose
table-excluded prose is non-empty, in page order, then the batch's
table unit when the vision reconstruction of the batch is non-empty. -/
def batchUnitsSpec (pdf : Pdf) (batch_size zoom : Nat) (llm : VisionLLM)
    (batch_start : Nat) : List Document :=
  let total_pages := pdf.pages.length
  let batch_end := min (batch_start + batch_size) total_pages
  let pageUnits := ((pdf.pages.enum.drop batch_start).take (batch_end - batch_start)).filterMap
    (fun ip =>
      let t := extract_page_text_excluding_tables ip.2 (get_table_bboxes ip.2)
      if t == "" then Option.none else some (eraseOrder (pageDoc pdf.path ip.1 0 t)))
  let tableUnits := match build_tables_doc_for_batch pdf.path (pdf_to_base64_images pdf)
      batch_start batch_end (batch_start + 1) batch_end batch_size zoom llm 0 with
    | some td => [eraseOrder td]
    | Option.none => []
  pageUnits ++ tableUnits

/-! ## Concrete inputs for witnesses and counterexamples -/

/-- A concrete content hash: decimal rendering of the byte list (stands
in for the SHA-256 hex digest; injective on byte lists). -/
def hashW : List Nat → String :=
  fun bs => "h" ++ String.intercalate "-" (bs.map toString)

/-- A concrete vision model: non-empty table markup for any non-empty
batch, a fixed caption for any image. -/
def llmW : VisionLLM :=
  { reconstruct := fun imgs => if imgs.isEmpty then "" else "## Table: W"
    describe := fun _ => "an image" }

/-- A concrete vision model that never finds tables. -/
def llmEmptyW : VisionLLM :=
  { reconstruct := fun _ => ""
    describe := fun _ => "an image" }

/-- Page 1: prose, no tables, one embedded image. -/
def pageW1 : PdfPage :=
  { blocks := [{ x0 := 0, y0 := 0, x1 := 10, y1 := 10, text := "Hello" }]
    findTables := .found []
    render := "r1"
    images := [{ bytes := [1, 2, 3], ext := some "png", width := some 4, height := some 4 }]
    rawText := "Hello" }

/-- Page 2: its only block sits inside a detected table bbox, and the
same image bytes as page 1 appear again. -/
def pageW2 : PdfPage :=
  { blocks := [{ x0 := 1, y0 := 1, x1 := 2, y1 := 2, text := "Tab" }]
    findTables := .found [{ x0 := 0, y0 := 0, x1 := 10, y1 := 10 }]
    render := "r2"
    images := [{ bytes := [1, 2, 3], ext := some "png", width := some 4, height := some 4 }]
    rawText := "Tab" }

/-- Page 3: prose, table detection raises. -/
def pageW3 : PdfPage :=
  { blocks := [{ x0 := 0, y0 := 0, x1 := 5, y1 := 5, text := "World" }]
    findTables := .failure "boom"
    render := "r3"
    images := []
    rawText := "World" }

/-- The concrete three-page document. -/
def pdfW : Pdf :=
  { path := "doc.pdf", pages := [pageW1, pageW2, pageW3] }

/-- A concrete two-page document with no detected tables and the same
image embedded on both pages. -/
def pdfC1 : Pdf :=
  { path := "doc.pdf"
    pages := [{ blocks := [{ x0 := 0, y0 := 0, x1 := 10, y1 := 10, text := "Hello" }]
                findTables := .found []
                render := "r1"
                images := [{ bytes := [1, 2, 3], ext := some "png", width := some 4,
                             height := some 4 }]
                rawText := "Hello" },
              { blocks := []
                findTables := .failure "boom"
                render := "r2"
                images := [{ bytes := [1, 2, 3], ext := some "png", width := some 4,
                             height := some 4 }]
                rawText := "" }] }

/-- The blocks of a page that survive table exclusion: non-blank text
and center inside no detected table bbox. -/
def survivingBlocks (p : PdfPage) : List Block :=
  p.blocks.filter (fun b => !(pyStrip b.text == "") &&
    !((get_table_bboxes p).any (fun bb =>
      centerInBBox ((b.x0 + b.x1) / 2) ((b.y0 + b.y1) / 2) bb)))

/-- The output units whose `image_hash` metadata is the hash of `b`. -/
def hashFilter (imageHash : List Nat → String) (b : List Nat) (docs : List Document) :
    List Document :=
  docs.filter (fun d => metaLookup d.metadata "image_hash" == some (.str (imageHash b)))

/-- How many caption calls were made on the bytes `b`. -/
def captionCount (effs : List Effect) (b : List Nat) : Nat :=
  (effs.filter (fun e => match e with
    | .caption bs => bs == b
    | .write _ _ => false)).length

/-- How many disk writes persisted the bytes `b`. -/
def writeCount (effs : List Effect) (b : List Nat) : Nat :=
  (effs.filter (fun e => match e with
    | .caption _ => false
    | .write _ bs => bs == b)).length

/-- The (image index, image) occurrences of the bytes `b` among one
page's enumerated images, in scan order. -/
def pageOccs (b : List Nat) (l : List (Nat × PdfImage)) : List (Nat × PdfImage) :=
  l.filter (fun x => x.2.bytes == b)

/-- The unit the extractor builds at a given within-page occurrence. -/
def expectedPageImageDoc (imageHash : List Nat → String) (llm : VisionLLM)
    (pdfPath output_dir : String) (page_index : Nat) (snip : String)
    (occ : Nat × PdfImage) : Document :=
  imageDoc pdfPath page_index (pyStrip (llm.describe occ.2.bytes))
    (output_dir ++ "/" ++ image_name pdfPath page_index occ.1 (some (occ.2.ext.getD "png")))
    snip occ.2.width occ.2.height (imageHash occ.2.bytes)

/-- The occurrences of the bytes `b` across the enumerated pages, in
scan order, each with its page (for the snippet). -/
def pdfOccs (b : List Nat) (l : List (Nat × PdfPage)) :
    List ((Nat × PdfPage) × (Nat × PdfImage)) :=
  l.flatMap (fun pp => (pageOccs b pp.2.images.enum).map (fun io => (pp, io)))

/-- The unit the extractor builds at a given document occurrence. -/
def expectedPdfImageDoc (imageHash : List Nat → String) (llm : VisionLLM)
    (snippetLimit : Nat) (pdfPath output_dir : String)
    (occ : (Nat × PdfPage) × (Nat × PdfImage)) : Document :=
  expectedPageImageDoc imageHash llm pdfPath output_dir occ.1.1
    (page_text_snippet occ.1.2 snippetLimit) occ.2

/-- How many events of the stream have the given stage. -/
def stageCount (evs : List ProgressEvent) (s : EmbedDocumentStage) : Nat :=
  (evs.filter (fun ev => ev.stage == s)).length

/-- The seven events every run yields before the embedding loop (for a
run that reaches the chunking stage): the downloading, loading, chunking
and embedding-start events in source order. -/
def headEvents (nDocs total_chunks : Nat) : List ProgressEvent :=
  [⟨.downloading, 0, "Downloading document from S3...", 0, 0, Option.none, Option.none⟩,
   ⟨.downloading, 10, "Document downloaded successfully", 0, 0, Option.none, Option.none⟩,
   ⟨.loading, 10, "Loading and parsing document...", 0, 0, Option.none, Option.none⟩,
   ⟨.loading, 20, "Loaded " ++ toString nDocs ++ " pages/sections", 0, 0,
     Option.none, Option.none⟩,
   ⟨.chunking, 20, "Splitting document into semantic chunks...", 0, 0,
     Option.none, Option.none⟩,
   ⟨.chunking, 30, "Created " ++ toString total_chunks ++ " chunks", 0, total_chunks,
     Option.none, Option.none⟩,
   ⟨.embedding, 30, "Generating embeddings...", 0, total_chunks,
     Option.none, Option.none⟩]

/-- The event yielded at the start of the storing stage. -/
def storingEvent (total_chunks : Nat) : ProgressEvent :=
  ⟨.storing, 90, "Storing embeddings in vector database...", total_chunks, total_chunks,
    Option.none, Option.none⟩

/-- The terminal event of a successful run. -/
def completedEvent (total_chunks : Nat) (document_id : String) : ProgressEvent :=
  ⟨.completed, 100, "Document embedded successfully", total_chunks, total_chunks,
    some document_id, Option.none⟩

/-- A concrete run whose loader raises after the download succeeded. -/
def envC2 : PipelineEnv :=
  { download := .ok ()
    load := .error "boom"
    chunker := fun primitive => primitive
    s3Key := "docs/report.pdf"
    embed := fun _ => .ok []
    ensure := .ok ()
    insert := fun _ _ => .ok ()
    documentId := "id-1" }

/-- A concrete successful run producing seven chunks (so the embedding
cadence yields events at chunk 5 and at the last chunk). -/
def envOkW : PipelineEnv :=
  { download := .ok ()
    load := .ok [{ page_content := "text", metadata := [] }]
    chunker := fun primitive => primitive.flatMap (fun p =>
      [("c1", p.2), ("c2", p.2), ("c3", p.2), ("c4", p.2), ("c5", p.2),
       ("c6", p.2), ("c7", p.2)])
    s3Key := "docs/report.pdf"
    embed := fun _ => .ok []
    ensure := .ok ()
    insert := fun _ _ => .ok ()
    documentId := "id-1" }

/-- A concrete batch: one PDF that ingests into two units, one that
fails. -/
def filesW : List (String × IngestOutcome) :=
  [("a.pdf", .ok [{ page_content := "u-one", metadata := [] },
                  { page_content := "u-two", metadata := [] }]),
   ("b.pdf", .failed "io error")]

/-- The identity semantic chunker (one chunk per unit). -/
def chunkerId : SemChunk := fun primitive => primitive

/-- A concrete input unit whose own `source` differs from the
caller-supplied source name. -/
def docInC10 : Document :=
  { page_content := "hello"
    metadata := [("source", .str "orig.pdf"), ("page", .num 3)] }

/-! ## Theorems -/

theorem docOrder_pageDoc (pdfPath : String) (page_idx order_index : Nat) (text : String) :
    docOrder (pageDoc pdfPath page_idx order_index text) = some (.num order_index) := rfl

theorem docOrder_tableDoc (pdfPath : String)
    (page_start page_end order_index batch_size zoom : Nat) (markdown : String) :
    docOrder (tableDoc pdfPath page_start page_end order_index batch_size zoom markdown) =
      some (.num order_index) := rfl

theorem eraseOrder_pageDoc (pdfPath : String) (page_idx o o' : Nat) (text : String) :
    eraseOrder (pageDoc pdfPath page_idx o text) =
      eraseOrder (pageDoc pdfPath page_idx o' text) := rfl

theorem eraseOrder_tableDoc (pdfPath : String)
    (page_start page_end o o' batch_size zoom : Nat) (markdown : String) :
    eraseOrder (tableDoc pdfPath page_start page_end o batch_size zoom markdown) =
      eraseOrder (tableDoc pdfPath page_start page_end o' batch_size zoom markdown) := rfl

theorem enumOrders_zero (s : Nat) : enumOrders s 0 = [] := rfl

theorem enumOrders_succ (s n : Nat) :
    enumOrders s (n + 1) = some (.num s) :: enumOrders (s + 1) n := by
  simp [enumOrders, List.range'_succ]

theorem enumOrders_append (s m n : Nat) :
    enumOrders s m ++ enumOrders (s + m) n = enumOrders s (m + n) := by
  have h := List.range'_append s m n 1
  simp only [one_mul] at h
  simp [enumOrders, ← List.map_append, h, Nat.add_comm m n]

/-- The final counter of one page-text batch is the initial counter plus
the number of emitted docs, and the emitted docs carry exactly the
consecutive `order` values starting at the initial counter. -/
theorem pageTextDocsAux_orders (pdfPath : String) :
    ∀ (l : List (Nat × PdfPage)) (o : Nat),
      (pageTextDocsAux pdfPath l o).2 = o + (pageTextDocsAux pdfPath l o).1.length ∧
      (pageTextDocsAux pdfPath l o).1.map docOrder =
        enumOrders o (pageTextDocsAux pdfPath l o).1.length
  | [], o => by simp [pageTextDocsAux, enumOrders_zero]
  | (page_idx, p) :: rest, o => by
    have ih₀ := pageTextDocsAux_orders pdfPath rest o
    have ih₁ := pageTextDocsAux_orders pdfPath rest (o + 1)
    by_cases h : extract_page_text_excluding_tables p (get_table_bboxes p) == ""
    · simpa [pageTextDocsAux, h] using ih₀
    · simp only [pageTextDocsAux, h, if_neg, Bool.false_eq_true, not_false_iff]
      refine ⟨?_, ?_⟩
      · simp only [List.length_cons]
        omega
      · simp only [List.map_cons, docOrder_pageDoc, List.length_cons, enumOrders_succ]
        exact congrArg _ ih₁.2

/-- The docs of one page-text batch, `order` erased, are exactly the
pages of the batch with non-empty table-excluded prose, in page order;
in particular the emitted docs do not depend on the initial counter. -/
theorem pageTextDocsAux_erased (pdfPath : String) :
    ∀ (l : List (Nat × PdfPage)) (o : Nat),
      (pageTextDocsAux pdfPath l o).1.map eraseOrder = l.filterMap (fun ip =>
        let t := extract_page_text_excluding_tables ip.2 (get_table_bboxes ip.2)
        if t == "" then Option.none else some (eraseOrder (pageDoc pdfPath ip.1 0 t)))
  | [], o => by simp [pageTextDocsAux]
  | (page_idx, p) :: rest, o => by
    by_cases h : extract_page_text_excluding_tables p (get_table_bboxes p) = ""
    · simpa [pageTextDocsAux, h, List.filterMap_cons] using
        pageTextDocsAux_erased pdfPath rest o
    · simp only [pageTextDocsAux, List.filterMap_cons, beq_iff_eq, h, if_false,
        List.map_cons]
      rw [pageTextDocsAux_erased pdfPath rest (o + 1),
        eraseOrder_pageDoc pdfPath page_idx o 0]
      simp

/-- The table doc of a batch, `order` erased, does not depend on the
counter value it was built with. -/
theorem build_tables_erased (pdfPath : String) (base64_images : List String)
    (batch_start batch_end page_start page_end batch_size zoom : Nat)
    (llm : VisionLLM) (o o' : Nat) :
    (build_tables_doc_for_batch pdfPath base64_images batch_start batch_end page_start
      page_end batch_size zoom llm o).map eraseOrder =
    (build_tables_doc_for_batch pdfPath base64_images batch_start batch_end page_start
      page_end batch_size zoom llm o').map eraseOrder := by
  unfold build_tables_doc_for_batch
  by_cases h1 : ((base64_images.drop batch_start).take (batch_end - batch_start)).isEmpty
  · simp [h1]
  · by_cases h2 : pyStrip (llm.reconstruct
        ((base64_images.drop batch_start).take (batch_end - batch_start))) == ""
    · simp [h1, h2]
    · simp only [h1, h2, Bool.false_eq_true, if_false, Option.map_some]
      exact congrArg some (eraseOrder_tableDoc pdfPath page_start page_end o o'
        batch_size zoom _)

/-- Appending a run of docs whose orders continue the enumeration
preserves the enumeration. -/
theorem enum_append_run (docs₁ docs₂ : List Document)
    (h1 : docs₁.map docOrder = enumOrders 0 docs₁.length)
    (h2 : docs₂.map docOrder = enumOrders docs₁.length docs₂.length) :
    (docs₁ ++ docs₂).map docOrder = enumOrders 0 (docs₁ ++ docs₂).length := by
  rw [List.map_append, h1, h2, List.length_append]
  have := enumOrders_append 0 docs₁.length docs₂.length
  simpa using this

theorem enumOrders_one (s : Nat) : enumOrders s 1 = [some (.num s)] := rfl

/-- A table doc built at counter `o` carries `order = o`. -/
theorem build_tables_some_order (pdfPath : String) (base64_images : List String)
    (batch_start batch_end page_start page_end batch_size zoom : Nat)
    (llm : VisionLLM) (o : Nat) (td : Document)
    (h : build_tables_doc_for_batch pdfPath base64_images batch_start batch_end
      page_start page_end batch_size zoom llm o = some td) :
    docOrder td = some (.num o) := by
  simp only [build_tables_doc_for_batch] at h
  split_ifs at h with h1 h2
  simp only [Option.some.injEq] at h
  rw [← h]
  exact docOrder_tableDoc _ _ _ _ _ _ _

/-- One batch step keeps the extractor's invariant: the threaded counter
equals the number of emitted docs, whose `order` values enumerate
`0, 1, 2, ...`. -/
theorem extractBatchStep_orders (pdf : Pdf) (batch_size zoom : Nat) (llm : VisionLLM)
    (recon : Bool) (acc : List Document × Nat) (b : Nat)
    (h1 : acc.2 = acc.1.length)
    (h2 : acc.1.map docOrder = enumOrders 0 acc.1.length) :
    (extractBatchStep pdf batch_size zoom llm recon acc b).2 =
      (extractBatchStep pdf batch_size zoom llm recon acc b).1.length ∧
    (extractBatchStep pdf batch_size zoom llm recon acc b).1.map docOrder =
      enumOrders 0 (extractBatchStep pdf batch_size zoom llm recon acc b).1.length := by
  obtain ⟨hsnd, hmap⟩ := pageTextDocsAux_orders pdf.path
    ((pdf.pages.enum.drop b).take (min (b + batch_size) pdf.pages.length - b)) acc.2
  have hmap' : (append_page_text_docs pdf b (min (b + batch_size) pdf.pages.length)
      acc.2).1.map docOrder = enumOrders acc.1.length
      (append_page_text_docs pdf b (min (b + batch_size) pdf.pages.length)
        acc.2).1.length := by
    simp only [append_page_text_docs]
    rw [hmap, h1]
  have hbase := enum_append_run acc.1 _ h2 hmap'
  have hsnd' : (append_page_text_docs pdf b (min (b + batch_size) pdf.pages.length)
      acc.2).2 = acc.1.length + (append_page_text_docs pdf b
        (min (b + batch_size) pdf.pages.length) acc.2).1.length := by
    simp only [append_page_text_docs]
    rw [hsnd, h1]
  simp only [extractBatchStep]
  cases recon
  · constructor
    · simpa using hsnd'
    · simpa using hbase
  · rw [if_pos rfl]
    cases hbuild : build_tables_doc_for_batch pdf.path (pdf_to_base64_images pdf) b
        (min (b + batch_size) pdf.pages.length) (b + 1)
        (min (b + batch_size) pdf.pages.length) batch_size zoom llm
        (append_page_text_docs pdf b (min (b + batch_size) pdf.pages.length) acc.2).2 with
    | none =>
      simp only [hbuild]
      constructor
      · simpa using hsnd'
      · simpa using hbase
    | some td =>
      simp only [hbuild]
      have htd : docOrder td = some (.num (acc.1.length + (append_page_text_docs pdf b
          (min (b + batch_size) pdf.pages.length) acc.2).1.length)) := by
        have := build_tables_some_order _ _ _ _ _ _ _ _ _ _ _ hbuild
        rwa [hsnd'] at this
      constructor
      · simp only [List.length_append, List.length_cons, List.length_nil]
        omega
      · refine enum_append_run _ _ hbase ?_
        simp [htd, enumOrders_one, List.length_append]

/-- The extractor's fold keeps the order invariant over any batch list. -/
theorem extract_foldl_orders (pdf : Pdf) (batch_size zoom : Nat) (llm : VisionLLM)
    (recon : Bool) :
    ∀ (l : List Nat) (acc : List Document × Nat),
      acc.2 = acc.1.length →
      acc.1.map docOrder = enumOrders 0 acc.1.length →
      (l.foldl (extractBatchStep pdf batch_size zoom llm recon) acc).2 =
        (l.foldl (extractBatchStep pdf batch_size zoom llm recon) acc).1.length ∧
      (l.foldl (extractBatchStep pdf batch_size zoom llm recon) acc).1.map docOrder =
        enumOrders 0 (l.foldl (extractBatchStep pdf batch_size zoom llm recon) acc).1.length
  | [], acc, h1, h2 => ⟨h1, h2⟩
  | b :: rest, acc, h1, h2 => by
    obtain ⟨h1', h2'⟩ := extractBatchStep_orders pdf batch_size zoom llm recon acc b h1 h2
    exact extract_foldl_orders pdf batch_size zoom llm recon rest _ h1' h2'

/-- The `order` metadata over the whole output of the table/text
extractor enumerates `0, 1, 2, ...`: one increment per emitted unit, in
emission order. -/
theorem extract_orders (pdf : Pdf) (batch_size zoom : Nat) (llm : VisionLLM)
    (recon : Bool) :
    (extract_tables_and_text_in_order pdf batch_size zoom llm recon).map docOrder =
      enumOrders 0 (extract_tables_and_text_in_order pdf batch_size zoom llm recon).length :=
  (extract_foldl_orders pdf batch_size zoom llm recon
    (batchStarts pdf.pages.length batch_size) ([], 0) rfl rfl).2

/-- One batch step appends exactly the batch's declarative units
(`order` erased). -/
theorem extractBatchStep_erased (pdf : Pdf) (batch_size zoom : Nat) (llm : VisionLLM)
    (acc : List Document × Nat) (b : Nat) :
    (extractBatchStep pdf batch_size zoom llm true acc b).1.map eraseOrder =
      acc.1.map eraseOrder ++ batchUnitsSpec pdf batch_size zoom llm b := by
  have herased' : (append_page_text_docs pdf b (min (b + batch_size) pdf.pages.length)
      acc.2).1.map eraseOrder =
      ((pdf.pages.enum.drop b).take (min (b + batch_size) pdf.pages.length - b)).filterMap
        (fun ip =>
          let t := extract_page_text_excluding_tables ip.2 (get_table_bboxes ip.2)
          if t == "" then Option.none else some (eraseOrder (pageDoc pdf.path ip.1 0 t))) := by
    simp only [append_page_text_docs]
    exact pageTextDocsAux_erased pdf.path
      ((pdf.pages.enum.drop b).take (min (b + batch_size) pdf.pages.length - b)) acc.2
  have hbuild := build_tables_erased pdf.path (pdf_to_base64_images pdf) b
    (min (b + batch_size) pdf.pages.length) (b + 1) (min (b + batch_size) pdf.pages.length)
    batch_size zoom llm
    (append_page_text_docs pdf b (min (b + batch_size) pdf.pages.length) acc.2).2 0
  simp only [extractBatchStep, if_pos rfl, batchUnitsSpec]
  cases hb : build_tables_doc_for_batch pdf.path (pdf_to_base64_images pdf) b
      (min (b + batch_size) pdf.pages.length) (b + 1)
      (min (b + batch_size) pdf.pages.length) batch_size zoom llm
      (append_page_text_docs pdf b (min (b + batch_size) pdf.pages.length) acc.2).2 with
  | none =>
    rw [hb] at hbuild
    cases hb0 : build_tables_doc_for_batch pdf.path (pdf_to_base64_images pdf) b
        (min (b + batch_size) pdf.pages.length) (b + 1)
        (min (b + batch_size) pdf.pages.length) batch_size zoom llm 0 with
    | none =>
      simp only [hb, hb0, if_true, List.map_append, List.append_nil]
      rw [herased']
    | some td0 => simp [hb0] at hbuild
  | some td =>
    rw [hb] at hbuild
    cases hb0 : build_tables_doc_for_batch pdf.path (pdf_to_base64_images pdf) b
        (min (b + batch_size) pdf.pages.length) (b + 1)
        (min (b + batch_size) pdf.pages.length) batch_size zoom llm 0 with
    | none => simp [hb0] at hbuild
    | some td0 =>
      rw [hb0] at hbuild
      simp only [Option.map_some', Option.some.injEq] at hbuild
      simp only [hb, hb0, if_true, List.map_append, List.map_cons, List.map_nil]
      rw [herased', hbuild, List.append_assoc]

/-- The extractor's fold appends the batches' declarative units in
batch order. -/
theorem extract_foldl_erased (pdf : Pdf) (batch_size zoom : Nat) (llm : VisionLLM) :
    ∀ (l : List Nat) (acc : List Document × Nat),
      (l.foldl (extractBatchStep pdf batch_size zoom llm true) acc).1.map eraseOrder =
        acc.1.map eraseOrder ++ l.flatMap (batchUnitsSpec pdf batch_size zoom llm)
  | [], acc => by simp
  | b :: rest, acc => by
    rw [List.foldl_cons, extract_foldl_erased pdf batch_size zoom llm rest _,
      extractBatchStep_erased pdf batch_size zoom llm acc b, List.flatMap_cons,
      List.append_assoc]

/-- A doc the image extractor builds carries no `order` metadata. -/
theorem build_image_doc_no_order (imageHash : List Nat → String) (llm : VisionLLM)
    (pdfPath : String) (page_index image_index : Nat) (snip : String) (img : PdfImage)
    (output_dir : String) (seen : List String) (d : Document)
    (h : (build_image_doc_from_pdf_image imageHash llm pdfPath page_index image_index
      snip img output_dir seen).1 = some d) :
    docOrder d = Option.none := by
  simp only [build_image_doc_from_pdf_image] at h
  split_ifs at h with h1 h2
  simp only [Option.some.injEq] at h
  rw [← h]
  rfl

/-- No doc of one page's image scan carries `order` metadata. -/
theorem imagePageScan_no_order (imageHash : List Nat → String) (llm : VisionLLM)
    (pdfPath output_dir : String) (page_index : Nat) (snip : String) :
    ∀ (l : List (Nat × PdfImage)) (seen : List String) (d : Document),
      d ∈ (imagePageScan imageHash llm pdfPath output_dir page_index snip l seen).1 →
      docOrder d = Option.none
  | [], seen, d, h => by simp [imagePageScan] at h
  | (ii, img) :: rest, seen, d, h => by
    simp only [imagePageScan, List.mem_append] at h
    rcases h with h | h
    · cases hb : (build_image_doc_from_pdf_image imageHash llm pdfPath page_index ii
          snip img output_dir seen).1 with
      | none => rw [hb] at h; simp at h
      | some d0 =>
        rw [hb] at h
        simp only [Option.toList_some, List.mem_singleton] at h
        subst h
        exact build_image_doc_no_order imageHash llm pdfPath page_index ii snip img
          output_dir seen _ hb
    · exact imagePageScan_no_order imageHash llm pdfPath output_dir page_index snip
        rest _ d h

/-- No doc of the whole image extraction carries `order` metadata. -/
theorem imagePagesScan_no_order (imageHash : List Nat → String) (llm : VisionLLM)
    (pdfPath output_dir : String) (snippetLimit : Nat) :
    ∀ (l : List (Nat × PdfPage)) (seen : List String) (d : Document),
      d ∈ (imagePagesScan imageHash llm pdfPath output_dir snippetLimit l seen).1 →
      docOrder d = Option.none
  | [], seen, d, h => by simp [imagePagesScan] at h
  | (pi, p) :: rest, seen, d, h => by
    simp only [imagePagesScan, List.mem_append] at h
    rcases h with h | h
    · exact imagePageScan_no_order imageHash llm pdfPath output_dir pi
        (page_text_snippet p snippetLimit) p.images.enum seen d h
    · exact imagePagesScan_no_order imageHash llm pdfPath output_dir snippetLimit
        rest _ d h

/-- C1 (amended): `ingest_pdf` returns all page-text/table units (in
extractor order) followed by all image units; the `order` metadata over
the page-text/table prefix enumerates `0, 1, 2, ...` (strictly
increasing), while the appended image units carry no `order` metadata at
all. -/
theorem C1_ingest_order_amended (imageHash : List Nat → String) (llm : VisionLLM)
    (snippetLimit : Nat) (pdf : Pdf) (output_dir : String) :
    ingest_pdf imageHash llm snippetLimit pdf output_dir =
      extract_tables_and_text_in_order pdf 5 3 llm true ++
        (build_image_docs_from_pdf_with_ai imageHash llm snippetLimit pdf output_dir).1 ∧
    (extract_tables_and_text_in_order pdf 5 3 llm true).map docOrder =
      enumOrders 0 (extract_tables_and_text_in_order pdf 5 3 llm true).length ∧
    (build_image_docs_from_pdf_with_ai imageHash llm snippetLimit pdf output_dir).1.map
        docOrder =
      List.replicate
        (build_image_docs_from_pdf_with_ai imageHash llm snippetLimit pdf output_dir).1.length
        Option.none := by
  refine ⟨rfl, extract_orders pdf 5 3 llm true, ?_⟩
  rw [List.eq_replicate_iff]
  refine ⟨by simp, ?_⟩
  intro b hb
  simp only [List.mem_map] at hb
  obtain ⟨d, hd, rfl⟩ := hb
  exact imagePagesScan_no_order imageHash llm pdf.path output_dir snippetLimit
    pdf.pages.enum [] d hd

/-- C1, as stated, fails: on a document with one prose page and an
embedded image, the image unit of the returned sequence carries no
`order` value, so it is not true that each unit carries an `order`
assigned by the orchestrator. -/
theorem C1_counterexample :
    ¬ ∀ d ∈ ingest_pdf hashW llmW 200 pdfC1 "/out", (docOrder d).isSome = true := by
  decide

/-- C3: for every PDF and positive batch size, the extractor emits units
batch by batch: within each batch one page-text unit per page with
non-empty table-excluded prose in page order, then the batch's single
table unit when the reconstruction output is non-empty; the `order`
counter increments exactly once per emitted unit, enumerating
`0, 1, 2, ...` over the whole output. -/
theorem C3_extract_batchwise (pdf : Pdf) (batch_size zoom : Nat) (llm : VisionLLM)
    (_hbs : 0 < batch_size) :
    (extract_tables_and_text_in_order pdf batch_size zoom llm true).map eraseOrder =
      (batchStarts pdf.pages.length batch_size).flatMap
        (batchUnitsSpec pdf batch_size zoom llm) ∧
    (extract_tables_and_text_in_order pdf batch_size zoom llm true).map docOrder =
      enumOrders 0 (extract_tables_and_text_in_order pdf batch_size zoom llm true).length := by
  refine ⟨?_, extract_orders pdf batch_size zoom llm true⟩
  have h := extract_foldl_erased pdf batch_size zoom llm
    (batchStarts pdf.pages.length batch_size) ([], 0)
  simpa [extract_tables_and_text_in_order] using h

/-- C3 witness at a concrete three-page document with batch size 2. -/
theorem C3_extract_batchwise_witness :
    0 < 2 ∧
    ((extract_tables_and_text_in_order pdfW 2 3 llmW true).map eraseOrder =
      (batchStarts pdfW.pages.length 2).flatMap (batchUnitsSpec pdfW 2 3 llmW) ∧
     (extract_tables_and_text_in_order pdfW 2 3 llmW true).map docOrder =
      enumOrders 0 (extract_tables_and_text_in_order pdfW 2 3 llmW true).length) :=
  ⟨by decide, C3_extract_batchwise pdfW 2 3 llmW (by decide)⟩

/-- All-of-negations equals negation-of-any, on `Bool` lists. -/
theorem all_not_eq_not_any {α : Type} (p : α → Bool) :
    ∀ l : List α, l.all (fun x => !(p x)) = !(l.any p)
  | [] => rfl
  | x :: xs => by
    simp only [List.all_cons, List.any_cons, Bool.not_or, all_not_eq_not_any p xs]

/-- `_block_outside_any_bbox` is exactly: the block center is in none of
the bboxes. -/
theorem block_outside_eq_not_any (b : Block) (bboxes : List BBox) :
    block_outside_any_bbox b bboxes =
      !(bboxes.any (fun bb =>
        centerInBBox ((b.x0 + b.x1) / 2) ((b.y0 + b.y1) / 2) bb)) := by
  cases bboxes with
  | nil => rfl
  | cons hd tl =>
    simp only [block_outside_any_bbox, List.isEmpty_cons, if_false,
      Bool.false_eq_true]
    exact all_not_eq_not_any _ (hd :: tl)


/-- C6: the page-text of a page is exactly the newline-joined stripped
texts of its surviving blocks — every block whose center lies inside a
detected table bbox (and every blank block) is absent — and a page with
no surviving block yields no page-text unit. -/
theorem C6_table_region_exclusion (p : PdfPage) (pdfPath : String) (idx order0 : Nat) :
    extract_page_text_excluding_tables p (get_table_bboxes p) =
      String.intercalate "\n" ((survivingBlocks p).map (fun b => pyStrip b.text)) ∧
    (survivingBlocks p = [] →
      pageTextDocsAux pdfPath [(idx, p)] order0 = ([], order0)) := by
  have hfilter : p.blocks.filter (fun b => !(pyStrip b.text == "") &&
      block_outside_any_bbox b (get_table_bboxes p)) = survivingBlocks p := by
    apply List.filter_congr
    intro b _
    rw [block_outside_eq_not_any]
  have hmain : extract_page_text_excluding_tables p (get_table_bboxes p) =
      String.intercalate "\n" ((survivingBlocks p).map (fun b => pyStrip b.text)) := by
    rw [extract_page_text_excluding_tables]
    simp only [hfilter]
    by_cases he : survivingBlocks p = []
    · rw [he]
      simp only [List.map_nil, List.isEmpty_nil, if_true]
      rfl
    · rw [if_neg]
      simp [he]
  refine ⟨hmain, fun hrem => ?_⟩
  have hempty : extract_page_text_excluding_tables p (get_table_bboxes p) = "" := by
    rw [hmain, hrem]
    rfl
  simp [pageTextDocsAux, hempty]

/-- C6 witness: on a page whose single text block center lies inside the
detected table bbox, no block survives and no page-text unit is emitted. -/
theorem C6_table_region_exclusion_witness :
    survivingBlocks pageW2 = [] ∧
    pageTextDocsAux "doc.pdf" [(1, pageW2)] 5 = ([], 5) := by
  have h : survivingBlocks pageW2 = [] := by
    simp only [survivingBlocks, pageW2, get_table_bboxes, List.filter, centerInBBox]
    norm_num
  exact ⟨h, (C6_table_region_exclusion pageW2 "doc.pdf" 1 5).2 h⟩

/-- C7: when table detection raises on a page, the page is treated as
having no table regions: no block is excluded, its full prose becomes
the page-text, and processing of the page and the rest of its batch
continues normally. -/
theorem C7_detection_failure_fail_open (p : PdfPage) (msg : String)
    (h : p.findTables = .failure msg) :
    get_table_bboxes p = [] ∧
    extract_page_text_excluding_tables p (get_table_bboxes p) =
      String.intercalate "\n"
        ((p.blocks.filter (fun b => !(pyStrip b.text == ""))).map
          (fun b => pyStrip b.text)) ∧
    ∀ (pdfPath : String) (idx order0 : Nat) (rest : List (Nat × PdfPage)),
      extract_page_text_excluding_tables p (get_table_bboxes p) ≠ "" →
      pageTextDocsAux pdfPath ((idx, p) :: rest) order0 =
        (pageDoc pdfPath idx order0
            (extract_page_text_excluding_tables p (get_table_bboxes p)) ::
          (pageTextDocsAux pdfPath rest (order0 + 1)).1,
         (pageTextDocsAux pdfPath rest (order0 + 1)).2) := by
  have hbb : get_table_bboxes p = [] := by simp [get_table_bboxes, h]
  refine ⟨hbb, ?_, ?_⟩
  · rw [hbb, extract_page_text_excluding_tables]
    have hf : p.blocks.filter (fun b => !(pyStrip b.text == "") &&
        block_outside_any_bbox b []) =
        p.blocks.filter (fun b => !(pyStrip b.text == "")) := by
      apply List.filter_congr
      intro b _
      simp [block_outside_any_bbox]
    simp only [hf]
    by_cases he : p.blocks.filter (fun b => !(pyStrip b.text == "")) = []
    · rw [he]
      simp only [List.map_nil, List.isEmpty_nil, if_true]
      rfl
    · rw [if_neg]
      simp [he]
  · intro pdfPath idx order0 rest hne
    have hne' : (extract_page_text_excluding_tables p (get_table_bboxes p) == "") =
        false := by
      simpa using hne
    simp only [pageTextDocsAux, hne', Bool.false_eq_true, if_false]

/-- C7 witness: page 3 of the concrete document, where table detection
raises, keeps its full prose and the batch goes on. -/
theorem C7_detection_failure_witness :
    pageW3.findTables = TableFind.failure "boom" ∧
    get_table_bboxes pageW3 = [] ∧
    pageTextDocsAux "doc.pdf" [(2, pageW3)] 7 =
      (pageDoc "doc.pdf" 2 7 (extract_page_text_excluding_tables pageW3
          (get_table_bboxes pageW3)) :: (pageTextDocsAux "doc.pdf" [] 8).1,
       (pageTextDocsAux "doc.pdf" [] 8).2) := by
  obtain ⟨h1, _, h3⟩ := C7_detection_failure_fail_open pageW3 "boom" rfl
  exact ⟨rfl, h1, h3 "doc.pdf" 2 7 [] (by decide)⟩

theorem imageDoc_hash_meta (pdfPath : String) (page_index : Nat)
    (description image_path snip : String) (width height : Option Nat) (img_hash : String) :
    metaLookup (imageDoc pdfPath page_index description image_path snip
      width height img_hash).metadata "image_hash" = some (.str img_hash) := rfl

theorem hashFilter_append (imageHash : List Nat → String) (b : List Nat)
    (d₁ d₂ : List Document) :
    hashFilter imageHash b (d₁ ++ d₂) =
      hashFilter imageHash b d₁ ++ hashFilter imageHash b d₂ := by
  simp [hashFilter, List.filter_append]

theorem captionCount_append (e₁ e₂ : List Effect) (b : List Nat) :
    captionCount (e₁ ++ e₂) b = captionCount e₁ b + captionCount e₂ b := by
  simp [captionCount, List.filter_append]

theorem writeCount_append (e₁ e₂ : List Effect) (b : List Nat) :
    writeCount (e₁ ++ e₂) b = writeCount e₁ b + writeCount e₂ b := by
  simp [writeCount, List.filter_append]

/-- `_build_image_doc_from_pdf_image` on an empty byte stream: silent
skip, no effects, dedup set unchanged. -/
theorem build_image_doc_empty_bytes (imageHash : List Nat → String) (llm : VisionLLM)
    (pdfPath : String) (pi ii : Nat) (snip : String) (img : PdfImage)
    (output_dir : String) (seen : List String) (h : img.bytes = []) :
    build_image_doc_from_pdf_image imageHash llm pdfPath pi ii snip img output_dir seen =
      (Option.none, [], seen) := by
  simp [build_image_doc_from_pdf_image, h]

/-- `_build_image_doc_from_pdf_image` on an already-seen hash: skip, no
effects, dedup set unchanged. -/
theorem build_image_doc_seen (imageHash : List Nat → String) (llm : VisionLLM)
    (pdfPath : String) (pi ii : Nat) (snip : String) (img : PdfImage)
    (output_dir : String) (seen : List String) (h1 : ¬ img.bytes = [])
    (h2 : seen.contains (imageHash img.bytes) = true) :
    build_image_doc_from_pdf_image imageHash llm pdfPath pi ii snip img output_dir seen =
      (Option.none, [], seen) := by
  have h2' : imageHash img.bytes ∈ seen := by simpa using h2
  simp [build_image_doc_from_pdf_image, h1, h2']

/-- `_build_image_doc_from_pdf_image` on a fresh non-empty image: one
caption, one write, one unit, hash added to the dedup set. -/
theorem build_image_doc_new (imageHash : List Nat → String) (llm : VisionLLM)
    (pdfPath : String) (pi ii : Nat) (snip : String) (img : PdfImage)
    (output_dir : String) (seen : List String) (h1 : ¬ img.bytes = [])
    (h2 : seen.contains (imageHash img.bytes) = false) :
    build_image_doc_from_pdf_image imageHash llm pdfPath pi ii snip img output_dir seen =
      (some (expectedPageImageDoc imageHash llm pdfPath output_dir pi snip (ii, img)),
        [Effect.caption img.bytes,
         Effect.write (output_dir ++ "/" ++ image_name pdfPath pi ii
           (some (img.ext.getD "png"))) img.bytes],
        seen ++ [imageHash img.bytes]) := by
  have h2' : imageHash img.bytes ∉ seen := by simpa using h2
  simp [build_image_doc_from_pdf_image, h1, h2', expectedPageImageDoc]

/-- Dedup invariant, within one page, hash of `b` already seen: the page
scan emits no unit for `b`, captions nothing equal to `b`, writes
nothing equal to `b`, and keeps the hash in the dedup set. -/
theorem imagePageScan_seen (imageHash : List Nat → String) (llm : VisionLLM)
    (pdfPath output_dir : String) (pi : Nat) (snip : String) (b : List Nat) :
    ∀ (l : List (Nat × PdfImage)) (seen : List String),
      (∀ x ∈ l, imageHash x.2.bytes = imageHash b → x.2.bytes = b) →
      seen.contains (imageHash b) = true →
      hashFilter imageHash b
        (imagePageScan imageHash llm pdfPath output_dir pi snip l seen).1 = [] ∧
      captionCount
        (imagePageScan imageHash llm pdfPath output_dir pi snip l seen).2.1 b = 0 ∧
      writeCount
        (imagePageScan imageHash llm pdfPath output_dir pi snip l seen).2.1 b = 0 ∧
      (imagePageScan imageHash llm pdfPath output_dir pi snip l seen).2.2.contains
        (imageHash b) = true
  | [], seen, _, hseen => by
    have hmem : imageHash b ∈ seen := by simpa using hseen
    simp [imagePageScan, hashFilter, captionCount, writeCount, hmem]
  | (ii, img) :: rest, seen, hinj, hseen => by
    have hinj_rest : ∀ x ∈ rest, imageHash x.2.bytes = imageHash b → x.2.bytes = b :=
      fun x hx => hinj x (List.mem_cons_of_mem _ hx)
    by_cases hb0 : img.bytes = []
    · have hbuild := build_image_doc_empty_bytes imageHash llm pdfPath pi ii snip img
        output_dir seen hb0
      have ih := imagePageScan_seen imageHash llm pdfPath output_dir pi snip b rest
        seen hinj_rest hseen
      simp only [imagePageScan, hbuild]
      simpa using ih
    · by_cases hdup : seen.contains (imageHash img.bytes) = true
      · have hbuild := build_image_doc_seen imageHash llm pdfPath pi ii snip img
          output_dir seen hb0 hdup
        have ih := imagePageScan_seen imageHash llm pdfPath output_dir pi snip b rest
          seen hinj_rest hseen
        simp only [imagePageScan, hbuild]
        simpa using ih
      · have hdup' : seen.contains (imageHash img.bytes) = false := by
          simpa using hdup
        have hbuild := build_image_doc_new imageHash llm pdfPath pi ii snip img
          output_dir seen hb0 hdup'
        have hne : img.bytes ≠ b := by
          intro hcontra
          rw [hcontra] at hdup'
          rw [hdup'] at hseen
          exact Bool.false_ne_true hseen
        have hhashne : imageHash img.bytes ≠ imageHash b := fun hh =>
          hne (hinj (ii, img) (List.mem_cons_self _ _) hh)
        have hseen' : (seen ++ [imageHash img.bytes]).contains (imageHash b) = true := by
          have : imageHash b ∈ seen := by simpa using hseen
          simp [this]
        have ih := imagePageScan_seen imageHash llm pdfPath output_dir pi snip b rest
          (seen ++ [imageHash img.bytes]) hinj_rest hseen'
        simp only [imagePageScan, hbuild]
        refine ⟨?_, ?_, ?_, ih.2.2.2⟩
        · rw [Option.toList_some, show ([expectedPageImageDoc imageHash llm pdfPath
            output_dir pi snip (ii, img)] : List Document) =
            [expectedPageImageDoc imageHash llm pdfPath output_dir pi snip (ii, img)] ++ []
            from rfl]
          rw [List.append_nil, hashFilter_append]
          rw [ih.1, List.append_nil]
          simp [hashFilter, expectedPageImageDoc, imageDoc_hash_meta, hhashne]
        · rw [captionCount_append, ih.2.1]
          simp [captionCount, hne]
        · rw [writeCount_append, ih.2.2.1]
          simp [writeCount, hne]

/-- Dedup invariant, within one page, hash of `b` not yet seen: the page
scan emits exactly the unit of the first `b`-occurrence of the page (if
any), captions and writes `b` exactly once if `b` occurs, and records
the hash in the dedup set exactly when `b` occurs. -/
theorem imagePageScan_new (imageHash : List Nat → String) (llm : VisionLLM)
    (pdfPath output_dir : String) (pi : Nat) (snip : String) (b : List Nat) :
    ∀ (l : List (Nat × PdfImage)) (seen : List String),
      (∀ x ∈ l, imageHash x.2.bytes = imageHash b → x.2.bytes = b) →
      b ≠ [] →
      seen.contains (imageHash b) = false →
      hashFilter imageHash b
        (imagePageScan imageHash llm pdfPath output_dir pi snip l seen).1 =
        (pageOccs b l).head?.toList.map
          (expectedPageImageDoc imageHash llm pdfPath output_dir pi snip) ∧
      captionCount (imagePageScan imageHash llm pdfPath output_dir pi snip l seen).2.1 b =
        (if (pageOccs b l).isEmpty then 0 else 1) ∧
      writeCount (imagePageScan imageHash llm pdfPath output_dir pi snip l seen).2.1 b =
        (if (pageOccs b l).isEmpty then 0 else 1) ∧
      (imagePageScan imageHash llm pdfPath output_dir pi snip l seen).2.2.contains
        (imageHash b) = !(pageOccs b l).isEmpty
  | [], seen, _, _, hseen => by
    simp only [imagePageScan, pageOccs, List.filter_nil, List.head?_nil,
      Option.toList_none, List.map_nil, List.isEmpty_nil, if_true, Bool.not_true]
    exact ⟨rfl, rfl, rfl, hseen⟩
  | (ii, img) :: rest, seen, hinj, hb, hseen => by
    have hinj_rest : ∀ x ∈ rest, imageHash x.2.bytes = imageHash b → x.2.bytes = b :=
      fun x hx => hinj x (List.mem_cons_of_mem _ hx)
    by_cases hb0 : img.bytes = []
    · have hbuild := build_image_doc_empty_bytes imageHash llm pdfPath pi ii snip img
        output_dir seen hb0
      have hnotb : (img.bytes == b) = false := by
        rw [beq_eq_false_iff_ne]
        rw [hb0]
        exact fun hcontra => hb hcontra.symm
      have ih := imagePageScan_new imageHash llm pdfPath output_dir pi snip b rest
        seen hinj_rest hb hseen
      simp only [imagePageScan, hbuild, pageOccs, List.filter_cons, hnotb,
        Bool.false_eq_true, if_false]
      simpa [pageOccs] using ih
    · by_cases him : img.bytes = b
      · subst him
        have hdup' : seen.contains (imageHash img.bytes) = false := hseen
        have hbuild := build_image_doc_new imageHash llm pdfPath pi ii snip img
          output_dir seen hb0 hdup'
        have hseen' : (seen ++ [imageHash img.bytes]).contains (imageHash img.bytes) =
            true := by simp
        have ih := imagePageScan_seen imageHash llm pdfPath output_dir pi snip
          img.bytes rest (seen ++ [imageHash img.bytes]) hinj_rest hseen'
        have hocc : pageOccs img.bytes ((ii, img) :: rest) =
            (ii, img) :: pageOccs img.bytes rest := by
          simp [pageOccs, List.filter_cons]
        simp only [imagePageScan, hbuild, hocc, Option.toList_some, List.head?_cons,
          List.isEmpty_cons, if_false, Bool.not_false]
        refine ⟨?_, ?_, ?_, ih.2.2.2⟩
        · rw [hashFilter_append, ih.1, List.append_nil]
          simp [hashFilter, expectedPageImageDoc, imageDoc_hash_meta]
        · rw [captionCount_append, ih.2.1]
          simp [captionCount]
        · rw [writeCount_append, ih.2.2.1]
          simp [writeCount]
      · have hhashne : imageHash img.bytes ≠ imageHash b := fun hh =>
          him (hinj (ii, img) (List.mem_cons_self _ _) hh)
        have hnotb : (img.bytes == b) = false := by
          rw [beq_eq_false_iff_ne]
          exact him
        by_cases hdup : seen.contains (imageHash img.bytes) = true
        · have hbuild := build_image_doc_seen imageHash llm pdfPath pi ii snip img
            output_dir seen hb0 hdup
          have ih := imagePageScan_new imageHash llm pdfPath output_dir pi snip b rest
            seen hinj_rest hb hseen
          simp only [imagePageScan, hbuild, pageOccs, List.filter_cons, hnotb,
            Bool.false_eq_true, if_false]
          simpa [pageOccs] using ih
        · have hdup' : seen.contains (imageHash img.bytes) = false := by
            simpa using hdup
          have hbuild := build_image_doc_new imageHash llm pdfPath pi ii snip img
            output_dir seen hb0 hdup'
          have hseen' : (seen ++ [imageHash img.bytes]).contains (imageHash b) =
              false := by
            have h1 : imageHash b ∉ seen := by simpa using hseen
            have h2 : imageHash b ≠ imageHash img.bytes := fun hcontra =>
              hhashne hcontra.symm
            simp [h1, h2]
          have ih := imagePageScan_new imageHash llm pdfPath output_dir pi snip b rest
            (seen ++ [imageHash img.bytes]) hinj_rest hb hseen'
          have hocc : pageOccs b ((ii, img) :: rest) = pageOccs b rest := by
            simp [pageOccs, List.filter_cons, hnotb]
          simp only [imagePageScan, hbuild, hocc]
          refine ⟨?_, ?_, ?_, ih.2.2.2⟩
          · rw [Option.toList_some, hashFilter_append, ih.1]
            have hdrop : hashFilter imageHash b [expectedPageImageDoc imageHash llm
                pdfPath output_dir pi snip (ii, img)] = [] := by
              simp [hashFilter, expectedPageImageDoc, imageDoc_hash_meta, hhashne]
            rw [hdrop, List.nil_append]
          · rw [captionCount_append, ih.2.1]
            simp [captionCount, hnotb]
          · rw [writeCount_append, ih.2.2.1]
            simp [writeCount, hnotb]

theorem mem_of_mem_enum {α : Type} {l : List α} {x : Nat × α} (h : x ∈ l.enum) :
    x.2 ∈ l := by
  have hm := List.mem_map_of_mem Prod.snd h
  rwa [List.enum_map_snd] at hm

/-- Dedup invariant across pages, hash of `b` already seen: nothing for
`b` is emitted, captioned or written. -/
theorem imagePagesScan_seen_inv (imageHash : List Nat → String) (llm : VisionLLM)
    (pdfPath output_dir : String) (snippetLimit : Nat) (b : List Nat) :
    ∀ (l : List (Nat × PdfPage)) (seen : List String),
      (∀ pp ∈ l, ∀ im ∈ pp.2.images, imageHash im.bytes = imageHash b → im.bytes = b) →
      seen.contains (imageHash b) = true →
      hashFilter imageHash b
        (imagePagesScan imageHash llm pdfPath output_dir snippetLimit l seen).1 = [] ∧
      captionCount
        (imagePagesScan imageHash llm pdfPath output_dir snippetLimit l seen).2.1 b = 0 ∧
      writeCount
        (imagePagesScan imageHash llm pdfPath output_dir snippetLimit l seen).2.1 b = 0 ∧
      (imagePagesScan imageHash llm pdfPath output_dir snippetLimit l seen).2.2.contains
        (imageHash b) = true
  | [], seen, _, hseen => by
    exact ⟨rfl, rfl, rfl, hseen⟩
  | (pi, p) :: rest, seen, hinj, hseen => by
    have hinj_page : ∀ x ∈ p.images.enum,
        imageHash x.2.bytes = imageHash b → x.2.bytes = b :=
      fun x hx => hinj (pi, p) (List.mem_cons_self _ _) x.2 (mem_of_mem_enum hx)
    have hinj_rest : ∀ pp ∈ rest, ∀ im ∈ pp.2.images,
        imageHash im.bytes = imageHash b → im.bytes = b :=
      fun pp hpp => hinj pp (List.mem_cons_of_mem _ hpp)
    obtain ⟨p1, p2, p3, p4⟩ := imagePageScan_seen imageHash llm pdfPath output_dir pi
      (page_text_snippet p snippetLimit) b p.images.enum seen hinj_page hseen
    obtain ⟨r1, r2, r3, r4⟩ := imagePagesScan_seen_inv imageHash llm pdfPath output_dir
      snippetLimit b rest _ hinj_rest p4
    simp only [imagePagesScan]
    refine ⟨?_, ?_, ?_, r4⟩
    · rw [hashFilter_append, p1, r1, List.append_nil]
    · rw [captionCount_append, p2, r2]
    · rw [writeCount_append, p3, r3]

/-- Dedup invariant across pages, hash of `b` not yet seen: exactly the
unit of the first occurrence of `b` (if any) is emitted, with exactly
one caption and one write when `b` occurs. -/
theorem imagePagesScan_new_inv (imageHash : List Nat → String) (llm : VisionLLM)
    (pdfPath output_dir : String) (snippetLimit : Nat) (b : List Nat) :
    ∀ (l : List (Nat × PdfPage)) (seen : List String),
      (∀ pp ∈ l, ∀ im ∈ pp.2.images, imageHash im.bytes = imageHash b → im.bytes = b) →
      b ≠ [] →
      seen.contains (imageHash b) = false →
      hashFilter imageHash b
        (imagePagesScan imageHash llm pdfPath output_dir snippetLimit l seen).1 =
        (pdfOccs b l).head?.toList.map
          (expectedPdfImageDoc imageHash llm snippetLimit pdfPath output_dir) ∧
      captionCount
        (imagePagesScan imageHash llm pdfPath output_dir snippetLimit l seen).2.1 b =
        (if (pdfOccs b l).isEmpty then 0 else 1) ∧
      writeCount
        (imagePagesScan imageHash llm pdfPath output_dir snippetLimit l seen).2.1 b =
        (if (pdfOccs b l).isEmpty then 0 else 1) ∧
      (imagePagesScan imageHash llm pdfPath output_dir snippetLimit l seen).2.2.contains
        (imageHash b) = !(pdfOccs b l).isEmpty
  | [], seen, _, _, hseen => by
    simp only [imagePagesScan, pdfOccs, List.flatMap_nil, List.head?_nil,
      Option.toList_none, List.map_nil, List.isEmpty_nil, if_true, Bool.not_true]
    exact ⟨rfl, rfl, rfl, hseen⟩
  | (pi, p) :: rest, seen, hinj, hb, hseen => by
    have hinj_page : ∀ x ∈ p.images.enum,
        imageHash x.2.bytes = imageHash b → x.2.bytes = b :=
      fun x hx => hinj (pi, p) (List.mem_cons_self _ _) x.2 (mem_of_mem_enum hx)
    have hinj_rest : ∀ pp ∈ rest, ∀ im ∈ pp.2.images,
        imageHash im.bytes = imageHash b → im.bytes = b :=
      fun pp hpp => hinj pp (List.mem_cons_of_mem _ hpp)
    obtain ⟨p1, p2, p3, p4⟩ := imagePageScan_new imageHash llm pdfPath output_dir pi
      (page_text_snippet p snippetLimit) b p.images.enum seen hinj_page hb hseen
    have hoccs : pdfOccs b ((pi, p) :: rest) =
        (pageOccs b p.images.enum).map (fun io => ((pi, p), io)) ++ pdfOccs b rest := by
      simp [pdfOccs, List.flatMap_cons]
    cases hpo : pageOccs b p.images.enum with
    | nil =>
      rw [hpo] at p1 p2 p3 p4
      simp only [List.head?_nil, Option.toList_none, List.map_nil,
        List.isEmpty_nil, if_true, Bool.not_true] at p1 p2 p3 p4
      obtain ⟨r1, r2, r3, r4⟩ := imagePagesScan_new_inv imageHash llm pdfPath output_dir
        snippetLimit b rest _ hinj_rest hb p4
      simp only [imagePagesScan, hoccs, hpo, List.map_nil, List.nil_append]
      refine ⟨?_, ?_, ?_, r4⟩
      · rw [hashFilter_append, p1, r1, List.nil_append]
      · rw [captionCount_append, p2, r2, Nat.zero_add]
      · rw [writeCount_append, p3, r3, Nat.zero_add]
    | cons io tl =>
      rw [hpo] at p1 p2 p3 p4
      simp only [List.head?_cons, Option.toList_some, List.map_cons, List.map_nil,
        List.isEmpty_cons, Bool.false_eq_true, if_false, Bool.not_false] at p1 p2 p3 p4
      obtain ⟨r1, r2, r3, r4⟩ := imagePagesScan_seen_inv imageHash llm pdfPath output_dir
        snippetLimit b rest _ hinj_rest p4
      simp only [imagePagesScan, hoccs, hpo, List.map_cons, List.cons_append,
        List.head?_cons, Option.toList_some, List.isEmpty_cons, Bool.false_eq_true,
        if_false, Bool.not_false]
      refine ⟨?_, ?_, ?_, r4⟩
      · rw [hashFilter_append, p1, r1, List.append_nil]
        rfl
      · rw [captionCount_append, p2, r2]
      · rw [writeCount_append, p3, r3]

/-- C4: if the same non-empty image bytes `b` occur at two or more
locations of a document (and the content hash does not collide on the
document's images), the extractor produces exactly one image unit for
`b` — the one built at the first occurrence — with exactly one caption
call and one disk write for `b`; the dedup set is created fresh for the
call (`build_image_docs_from_pdf_with_ai` starts it at `[]`). -/
theorem C4_image_dedup (imageHash : List Nat → String) (llm : VisionLLM)
    (snippetLimit : Nat) (pdf : Pdf) (output_dir : String) (b : List Nat)
    (hb : b ≠ [])
    (hinj : ∀ p ∈ pdf.pages, ∀ im ∈ p.images,
      imageHash im.bytes = imageHash b → im.bytes = b)
    (hocc : 2 ≤ (pdfOccs b pdf.pages.enum).length) :
    hashFilter imageHash b
      (build_image_docs_from_pdf_with_ai imageHash llm snippetLimit pdf output_dir).1 =
      (pdfOccs b pdf.pages.enum).head?.toList.map
        (expectedPdfImageDoc imageHash llm snippetLimit pdf.path output_dir) ∧
    (hashFilter imageHash b
      (build_image_docs_from_pdf_with_ai imageHash llm snippetLimit pdf
        output_dir).1).length = 1 ∧
    captionCount
      (build_image_docs_from_pdf_with_ai imageHash llm snippetLimit pdf output_dir).2
      b = 1 ∧
    writeCount
      (build_image_docs_from_pdf_with_ai imageHash llm snippetLimit pdf output_dir).2
      b = 1 := by
  have hinj' : ∀ pp ∈ pdf.pages.enum, ∀ im ∈ pp.2.images,
      imageHash im.bytes = imageHash b → im.bytes = b :=
    fun pp hpp => hinj pp.2 (mem_of_mem_enum hpp)
  have hne : (pdfOccs b pdf.pages.enum).isEmpty = false := by
    cases hcase : pdfOccs b pdf.pages.enum with
    | nil => rw [hcase] at hocc; simp at hocc
    | cons x xs => rfl
  obtain ⟨h1, h2, h3, _⟩ := imagePagesScan_new_inv imageHash llm pdf.path output_dir
    snippetLimit b pdf.pages.enum [] hinj' hb rfl
  refine ⟨h1, ?_, ?_, ?_⟩
  · rw [show (build_image_docs_from_pdf_with_ai imageHash llm snippetLimit pdf
        output_dir).1 = (imagePagesScan imageHash llm pdf.path output_dir snippetLimit
        pdf.pages.enum []).1 from rfl, h1]
    cases hcase : pdfOccs b pdf.pages.enum with
    | nil => rw [hcase] at hne; simp at hne
    | cons x xs => simp [hcase]
  · rw [show (build_image_docs_from_pdf_with_ai imageHash llm snippetLimit pdf
        output_dir).2 = (imagePagesScan imageHash llm pdf.path output_dir snippetLimit
        pdf.pages.enum []).2.1 from rfl, h2, hne]
    rfl
  · rw [show (build_image_docs_from_pdf_with_ai imageHash llm snippetLimit pdf
        output_dir).2 = (imagePagesScan imageHash llm pdf.path output_dir snippetLimit
        pdf.pages.enum []).2.1 from rfl, h3, hne]
    rfl

/-- C4 witness: the concrete two-page document with the bytes `[1,2,3]`
embedded on both pages. -/
theorem C4_image_dedup_witness :
    (([1, 2, 3] : List Nat) ≠ [] ∧
      (∀ p ∈ pdfC1.pages, ∀ im ∈ p.images,
        hashW im.bytes = hashW [1, 2, 3] → im.bytes = [1, 2, 3]) ∧
      2 ≤ (pdfOccs [1, 2, 3] pdfC1.pages.enum).length) ∧
    (hashFilter hashW [1, 2, 3]
      (build_image_docs_from_pdf_with_ai hashW llmW 200 pdfC1 "/out").1 =
      (pdfOccs [1, 2, 3] pdfC1.pages.enum).head?.toList.map
        (expectedPdfImageDoc hashW llmW 200 pdfC1.path "/out") ∧
    (hashFilter hashW [1, 2, 3]
      (build_image_docs_from_pdf_with_ai hashW llmW 200 pdfC1 "/out").1).length = 1 ∧
    captionCount
      (build_image_docs_from_pdf_with_ai hashW llmW 200 pdfC1 "/out").2 [1, 2, 3] = 1 ∧
    writeCount
      (build_image_docs_from_pdf_with_ai hashW llmW 200 pdfC1 "/out").2 [1, 2, 3] = 1) :=
  ⟨⟨by decide, by decide, by decide⟩,
    C4_image_dedup hashW llmW 200 pdfC1 "/out" [1, 2, 3] (by decide) (by decide)
      (by decide)⟩

theorem stageCount_append (e₁ e₂ : List ProgressEvent) (s : EmbedDocumentStage) :
    stageCount (e₁ ++ e₂) s = stageCount e₁ s + stageCount e₂ s := by
  simp [stageCount, List.filter_append]

theorem stageCount_zero_of_stages (s : EmbedDocumentStage) :
    ∀ (evs : List ProgressEvent), (∀ ev ∈ evs, ev.stage ≠ s) → stageCount evs s = 0 := by
  intro evs h
  have : evs.filter (fun ev => ev.stage == s) = [] := by
    rw [List.filter_eq_nil_iff]
    intro ev hev
    simpa using h ev hev
  simp [stageCount, this]

/-- Every event the embedding loop emits has stage `embedding`, a
progress value between the value at the loop's current position and 90,
and the emitted values are non-decreasing. -/
theorem embedLoop_props (embed : String → Except String (List ℚ)) (total : Nat) :
    ∀ (chunks : List String) (i : Nat), i + chunks.length = total →
      (∀ ev ∈ (embedLoopAux embed total chunks i).1,
        ev.stage = .embedding ∧ 30 + (i + 1) * 60 / total ≤ ev.progress_percent ∧
          ev.progress_percent ≤ 90) ∧
      List.Chain' (fun a b => a.progress_percent ≤ b.progress_percent)
        (embedLoopAux embed total chunks i).1
  | [], i, _ => by simp [embedLoopAux]
  | c :: rest, i, hlen => by
    have htot : 0 < total := by
      rw [← hlen]
      simp
    have hle : i + 1 ≤ total := by
      rw [← hlen]
      simp only [List.length_cons]
      omega
    have hub : embeddingProgress total i ≤ 90 := by
      have h1 : (i + 1) * 60 ≤ 60 * total := by
        calc (i + 1) * 60 ≤ total * 60 := Nat.mul_le_mul_right 60 hle
        _ = 60 * total := Nat.mul_comm _ _
      have h2 : (i + 1) * 60 / total ≤ 60 * total / total := Nat.div_le_div_right h1
      rw [Nat.mul_div_cancel 60 htot] at h2
      simp only [embeddingProgress]
      omega
    have hlb : ∀ j, i ≤ j → embeddingProgress total i ≤ embeddingProgress total j := by
      intro j hj
      simp only [embeddingProgress]
      have hmono : (i + 1) * 60 / total ≤ (j + 1) * 60 / total :=
        Nat.div_le_div_right (Nat.mul_le_mul_right 60 (by omega))
      omega
    cases hc : embed c with
    | error e => simp [embedLoopAux, hc]
    | ok v =>
      have hlen' : (i + 1) + rest.length = total := by
        rw [← hlen]
        simp only [List.length_cons]
        omega
      obtain ⟨ihb, ihc⟩ := embedLoop_props embed total rest (i + 1) hlen'
      by_cases hcond : ((i + 1) % 5 == 0 || i == total - 1) = true
      · simp only [embedLoopAux, hc, hcond, if_true]
        constructor
        · intro ev hev
          simp only [List.cons_append, List.nil_append, List.mem_cons] at hev
          rcases hev with rfl | hev
          · exact ⟨rfl, le_refl _, hub⟩
          · obtain ⟨hst, hlo, hhi⟩ := ihb ev hev
            exact ⟨hst, le_trans (hlb (i + 1) (by omega)) hlo, hhi⟩
        · simp only [List.cons_append, List.nil_append]
          rw [List.chain'_cons']
          refine ⟨?_, ihc⟩
          intro y hy
          have hymem : y ∈ (embedLoopAux embed total rest (i + 1)).1 :=
            List.mem_of_mem_head? hy
          obtain ⟨_, hlo, _⟩ := ihb y hymem
          exact le_trans (hlb (i + 1) (by omega)) hlo
      · have hcond' : ((i + 1) % 5 == 0 || i == total - 1) = false := by
          simpa using hcond
        simp only [embedLoopAux, hc, hcond', Bool.false_eq_true, if_false,
          List.nil_append]
        constructor
        · intro ev hev
          obtain ⟨hst, hlo, hhi⟩ := ihb ev hev
          exact ⟨hst, le_trans (hlb (i + 1) (by omega)) hlo, hhi⟩
        · exact ihc


theorem headEvents_stages (n t : Nat) :
    ∀ ev ∈ headEvents n t, ev.stage ≠ EmbedDocumentStage.error ∧
      ev.stage ≠ EmbedDocumentStage.completed := by
  intro ev hev
  simp only [headEvents, List.mem_cons, List.not_mem_nil, or_false] at hev
  rcases hev with rfl | rfl | rfl | rfl | rfl | rfl | rfl
  all_goals exact ⟨by simp, by simp⟩

/-- A failing run's stream is some prefix with no `error`/`completed`
event, followed by the single terminal `error` event for the raised
exception. -/
theorem stream_fail_shape (env : PipelineEnv) (e : String)
    (h : runError env = some e) :
    ∃ pre : List ProgressEvent,
      embed_document_with_progress env = pre ++ [errorEvent e] ∧
      ∀ ev ∈ pre, ev.stage ≠ EmbedDocumentStage.error ∧
        ev.stage ≠ EmbedDocumentStage.completed := by
  cases hd : env.download with
  | error e0 =>
    simp only [runError, hd, Option.some.injEq] at h
    subst h
    refine ⟨[⟨.downloading, 0, "Downloading document from S3...", 0, 0,
      Option.none, Option.none⟩], ?_, ?_⟩
    · simp [embed_document_with_progress, hd]
    · intro ev hev
      simp only [List.mem_singleton] at hev
      subst hev
      exact ⟨by simp, by simp⟩
  | ok u =>
    cases hl : env.load with
    | error e0 =>
      simp only [runError, hd, hl, Option.some.injEq] at h
      subst h
      refine ⟨[⟨.downloading, 0, "Downloading document from S3...", 0, 0,
          Option.none, Option.none⟩,
        ⟨.downloading, 10, "Document downloaded successfully", 0, 0,
          Option.none, Option.none⟩,
        ⟨.loading, 10, "Loading and parsing document...", 0, 0,
          Option.none, Option.none⟩], ?_, ?_⟩
      · simp [embed_document_with_progress, hd, hl]
      · intro ev hev
        simp only [List.mem_cons, List.not_mem_nil, or_false] at hev
        rcases hev with rfl | rfl | rfl
        all_goals exact ⟨by simp, by simp⟩
    | ok docs =>
      obtain ⟨hstages, -⟩ := embedLoop_props env.embed
        (chunk_document env.chunker docs (pathBasename env.s3Key)).length
        ((chunk_document env.chunker docs (pathBasename env.s3Key)).map
          (·.page_content)) 0 (by simp)
      cases he2 : (embedLoopAux env.embed
          (chunk_document env.chunker docs (pathBasename env.s3Key)).length
          ((chunk_document env.chunker docs (pathBasename env.s3Key)).map
            (·.page_content)) 0).2 with
      | some e1 =>
        simp only [runError, hd, hl, he2, Option.some.injEq] at h
        subst h
        refine ⟨headEvents docs.length
            (chunk_document env.chunker docs (pathBasename env.s3Key)).length ++
          (embedLoopAux env.embed
            (chunk_document env.chunker docs (pathBasename env.s3Key)).length
            ((chunk_document env.chunker docs (pathBasename env.s3Key)).map
              (·.page_content)) 0).1, ?_, ?_⟩
        · simp [embed_document_with_progress, hd, hl, he2, headEvents]
        · intro ev hev
          rcases List.mem_append.mp hev with hh | hh
          · exact headEvents_stages _ _ ev hh
          · obtain ⟨hst, -, -⟩ := hstages ev hh
            rw [hst]
            exact ⟨by simp, by simp⟩
      | none =>
        cases hen : env.ensure with
        | error e2 =>
          simp only [runError, hd, hl, he2, hen, Option.some.injEq] at h
          subst h
          refine ⟨headEvents docs.length
              (chunk_document env.chunker docs (pathBasename env.s3Key)).length ++
            (embedLoopAux env.embed
              (chunk_document env.chunker docs (pathBasename env.s3Key)).length
              ((chunk_document env.chunker docs (pathBasename env.s3Key)).map
                (·.page_content)) 0).1 ++
            [storingEvent
              (chunk_document env.chunker docs (pathBasename env.s3Key)).length],
            ?_, ?_⟩
          · simp [embed_document_with_progress, hd, hl, he2, hen, headEvents,
              storingEvent]
          · intro ev hev
            rcases List.mem_append.mp hev with hh | hh
            · rcases List.mem_append.mp hh with hh2 | hh2
              · exact headEvents_stages _ _ ev hh2
              · obtain ⟨hst, -, -⟩ := hstages ev hh2
                rw [hst]
                exact ⟨by simp, by simp⟩
            · simp only [List.mem_singleton] at hh
              subst hh
              exact ⟨by simp [storingEvent], by simp [storingEvent]⟩
        | ok u2 =>
          cases hins : insertLoop env.insert env.s3Key
              (chunk_document env.chunker docs (pathBasename env.s3Key)) with
          | some e3 =>
            simp only [runError, hd, hl, he2, hen, hins, Option.some.injEq] at h
            subst h
            refine ⟨headEvents docs.length
                (chunk_document env.chunker docs (pathBasename env.s3Key)).length ++
              (embedLoopAux env.embed
                (chunk_document env.chunker docs (pathBasename env.s3Key)).length
                ((chunk_document env.chunker docs (pathBasename env.s3Key)).map
                  (·.page_content)) 0).1 ++
              [storingEvent
                (chunk_document env.chunker docs (pathBasename env.s3Key)).length],
              ?_, ?_⟩
            · simp [embed_document_with_progress, hd, hl, he2, hen, hins, headEvents,
                storingEvent]
            · intro ev hev
              rcases List.mem_append.mp hev with hh | hh
              · rcases List.mem_append.mp hh with hh2 | hh2
                · exact headEvents_stages _ _ ev hh2
                · obtain ⟨hst, -, -⟩ := hstages ev hh2
                  rw [hst]
                  exact ⟨by simp, by simp⟩
              · simp only [List.mem_singleton] at hh
                subst hh
                exact ⟨by simp [storingEvent], by simp [storingEvent]⟩
          | none =>
            simp only [runError, hd, hl, he2, hen, hins] at h
            cases h

/-- A successful run's stream has non-decreasing progress values and
ends with the `completed` event at 100. -/
theorem stream_success (env : PipelineEnv) (h : runError env = Option.none) :
    List.Chain' (· ≤ ·)
      ((embed_document_with_progress env).map (·.progress_percent)) ∧
    ((embed_document_with_progress env).getLast?).map
      (fun ev => (ev.stage, ev.progress_percent)) =
      some (EmbedDocumentStage.completed, 100) := by
  cases hd : env.download with
  | error e0 => simp [runError, hd] at h
  | ok u =>
    cases hl : env.load with
    | error e0 => simp [runError, hd, hl] at h
    | ok docs =>
      obtain ⟨hbounds, hchain⟩ := embedLoop_props env.embed
        (chunk_document env.chunker docs (pathBasename env.s3Key)).length
        ((chunk_document env.chunker docs (pathBasename env.s3Key)).map
          (·.page_content)) 0 (by simp)
      cases he2 : (embedLoopAux env.embed
          (chunk_document env.chunker docs (pathBasename env.s3Key)).length
          ((chunk_document env.chunker docs (pathBasename env.s3Key)).map
            (·.page_content)) 0).2 with
      | some e1 => simp [runError, hd, hl, he2] at h
      | none =>
        cases hen : env.ensure with
        | error e2 => simp [runError, hd, hl, he2, hen] at h
        | ok u2 =>
          cases hins : insertLoop env.insert env.s3Key
              (chunk_document env.chunker docs (pathBasename env.s3Key)) with
          | some e3 => simp [runError, hd, hl, he2, hen, hins] at h
          | none =>
            have hstream : embed_document_with_progress env =
                headEvents docs.length
                  (chunk_document env.chunker docs (pathBasename env.s3Key)).length ++
                (embedLoopAux env.embed
                  (chunk_document env.chunker docs (pathBasename env.s3Key)).length
                  ((chunk_document env.chunker docs (pathBasename env.s3Key)).map
                    (·.page_content)) 0).1 ++
                [storingEvent
                  (chunk_document env.chunker docs (pathBasename env.s3Key)).length,
                 completedEvent
                  (chunk_document env.chunker docs (pathBasename env.s3Key)).length
                  env.documentId] := by
              simp [embed_document_with_progress, hd, hl, he2, hen, hins, headEvents,
                storingEvent, completedEvent]
            constructor
            · rw [hstream, List.map_append, List.map_append]
              have hmaphead : (headEvents docs.length
                  (chunk_document env.chunker docs (pathBasename env.s3Key)).length).map
                  (·.progress_percent) = [0, 10, 10, 20, 20, 30, 30] := by
                simp [headEvents]
              have hmaptail : ([storingEvent
                  (chunk_document env.chunker docs (pathBasename env.s3Key)).length,
                 completedEvent
                  (chunk_document env.chunker docs (pathBasename env.s3Key)).length
                  env.documentId].map (·.progress_percent)) = [90, 100] := by
                simp [storingEvent, completedEvent]
              rw [hmaphead, hmaptail, List.append_assoc]
              rw [List.chain'_append]
              refine ⟨by norm_num [List.chain'_cons], ?_, ?_⟩
              · rw [List.chain'_append]
                refine ⟨(List.chain'_map _).mpr hchain, by norm_num [List.chain'_cons], ?_⟩
                intro x hx y hy
                simp only [List.head?_cons, Option.mem_some_iff] at hy
                subst hy
                have hxmem : x ∈ ((embedLoopAux env.embed
                    (chunk_document env.chunker docs (pathBasename env.s3Key)).length
                    ((chunk_document env.chunker docs (pathBasename env.s3Key)).map
                      (·.page_content)) 0).1.map (·.progress_percent)) := by
                  exact List.mem_of_mem_getLast? hx
                obtain ⟨ev, hev, rfl⟩ := List.mem_map.mp hxmem
                exact (hbounds ev hev).2.2
              · intro x hx y hy
                simp only [List.getLast?_cons, Option.mem_def] at hx
                have hx30 : 30 = x := by
                  simpa using hx
                subst hx30
                rw [List.head?_append] at hy
                cases hcase : ((embedLoopAux env.embed
                    (chunk_document env.chunker docs (pathBasename env.s3Key)).length
                    ((chunk_document env.chunker docs (pathBasename env.s3Key)).map
                      (·.page_content)) 0).1.map (·.progress_percent)).head? with
                | none =>
                  rw [hcase] at hy
                  simp only [Option.none_or, List.head?_cons,
                    Option.mem_some_iff] at hy
                  omega
                | some v =>
                  rw [hcase] at hy
                  simp only [Option.or, Option.mem_some_iff] at hy
                  subst hy
                  have hvmem := List.mem_of_mem_head? hcase
                  obtain ⟨ev, hev, rfl⟩ := List.mem_map.mp hvmem
                  exact le_trans (Nat.le_add_right 30 _) (hbounds ev hev).2.1
            · rw [hstream]
              rw [List.getLast?_append, List.getLast?_append]
              simp [completedEvent]

/-- C2 (amended): on any exception, exactly one `error` event is
emitted, it is the last event of the stream, it carries the classified
`error_code`, it is reported with `progress_percent` 0 (not at the
progress reached before the failure), and no `completed` event is
emitted. -/
theorem C2_error_event_amended (env : PipelineEnv) (e : String)
    (h : runError env = some e) :
    stageCount (embed_document_with_progress env) EmbedDocumentStage.error = 1 ∧
    (embed_document_with_progress env).getLast? = some (errorEvent e) ∧
    (errorEvent e).error_code = some (classify_error_code e) ∧
    (errorEvent e).progress_percent = 0 ∧
    stageCount (embed_document_with_progress env) EmbedDocumentStage.completed = 0 := by
  obtain ⟨pre, hs, hpre⟩ := stream_fail_shape env e h
  rw [hs]
  refine ⟨?_, List.getLast?_concat pre, rfl, rfl, ?_⟩
  · rw [stageCount_append,
      stageCount_zero_of_stages _ pre (fun ev hev => (hpre ev hev).1)]
    rfl
  · rw [stageCount_append,
      stageCount_zero_of_stages _ pre (fun ev hev => (hpre ev hev).2)]
    rfl

/-- C2 witness: a run whose loader raises `"boom"`. -/
theorem C2_error_event_witness :
    runError envC2 = some "boom" ∧
    (stageCount (embed_document_with_progress envC2) EmbedDocumentStage.error = 1 ∧
     (embed_document_with_progress envC2).getLast? = some (errorEvent "boom") ∧
     (errorEvent "boom").error_code = some (classify_error_code "boom") ∧
     (errorEvent "boom").progress_percent = 0 ∧
     stageCount (embed_document_with_progress envC2) EmbedDocumentStage.completed = 0) :=
  ⟨by decide, C2_error_event_amended envC2 "boom" (by decide)⟩

/-- C2, as stated, fails: in a run that failed while loading, the
progress reached before the failure is 10, but the terminal `error`
event reports `progress_percent` 0, not 10. -/
theorem C2_error_progress_counterexample :
    (embed_document_with_progress envC2).map (·.progress_percent) = [0, 10, 10, 0] ∧
    ((embed_document_with_progress envC2).getLast?).map (·.stage) =
      some EmbedDocumentStage.error ∧
    ¬ ((embed_document_with_progress envC2).getLast?).map (·.progress_percent) =
      some 10 := by
  refine ⟨by decide, by decide, by decide⟩

/-- C5: a successful streaming run's `progress_percent` sequence is
non-decreasing and ends at 100 with stage `completed`; a failing run's
stream ends with exactly one `error` event and contains no `completed`
event. -/
theorem C5_progress_stream (env : PipelineEnv) :
    (runError env = Option.none →
      List.Chain' (· ≤ ·)
        ((embed_document_with_progress env).map (·.progress_percent)) ∧
      ((embed_document_with_progress env).getLast?).map
        (fun ev => (ev.stage, ev.progress_percent)) =
        some (EmbedDocumentStage.completed, 100)) ∧
    (∀ e, runError env = some e →
      stageCount (embed_document_with_progress env) EmbedDocumentStage.error = 1 ∧
      ((embed_document_with_progress env).getLast?).map (·.stage) =
        some EmbedDocumentStage.error ∧
      stageCount (embed_document_with_progress env) EmbedDocumentStage.completed = 0) := by
  refine ⟨stream_success env, ?_⟩
  intro e h
  obtain ⟨pre, hs, hpre⟩ := stream_fail_shape env e h
  rw [hs]
  refine ⟨?_, ?_, ?_⟩
  · rw [stageCount_append,
      stageCount_zero_of_stages _ pre (fun ev hev => (hpre ev hev).1)]
    rfl
  · rw [List.getLast?_concat]
    rfl
  · rw [stageCount_append,
      stageCount_zero_of_stages _ pre (fun ev hev => (hpre ev hev).2)]
    rfl

/-- C5 witness: a successful seven-chunk run and a failing run. -/
theorem C5_progress_stream_witness :
    (runError envOkW = Option.none ∧
      (List.Chain' (· ≤ ·)
        ((embed_document_with_progress envOkW).map (·.progress_percent)) ∧
      ((embed_document_with_progress envOkW).getLast?).map
        (fun ev => (ev.stage, ev.progress_percent)) =
        some (EmbedDocumentStage.completed, 100))) ∧
    (runError envC2 = some "boom" ∧
      (stageCount (embed_document_with_progress envC2) EmbedDocumentStage.error = 1 ∧
      ((embed_document_with_progress envC2).getLast?).map (·.stage) =
        some EmbedDocumentStage.error ∧
      stageCount (embed_document_with_progress envC2) EmbedDocumentStage.completed = 0)) :=
  ⟨⟨by decide, (C5_progress_stream envOkW).1 (by decide)⟩,
   ⟨by decide, (C5_progress_stream envC2).2 "boom" (by decide)⟩⟩

/-- C8 (amended): every document of a batch run is attempted
independently and the run always completes: the returned units are the
concatenation of the successful documents' units (a failed document
contributes nothing), one log line is emitted per document (success or
failure) plus a final summary line carrying the total unit count — but
no log line reports counts of documents processed versus failed. -/
theorem C8_batch_isolation_amended (files : List (String × IngestOutcome))
    (data_dir : String) :
    (load_documents files data_dir).1 = files.flatMap (fun f =>
      match f.2 with
      | .ok enriched_docs => enriched_docs
      | .failed _ => []) ∧
    (load_documents files data_dir).2 = files.map (fun f =>
      match f.2 with
      | .ok enriched_docs => LogMsg.info ("Enriched " ++ f.1 ++ " with " ++
          toString enriched_docs.length ++ " table/text/image documents")
      | .failed exc => LogMsg.error ("Failed to load/enrich " ++ f.1 ++ ": " ++ exc)) ++
      [LogMsg.info (" Loaded " ++ toString (files.flatMap (fun f =>
        match f.2 with
        | .ok enriched_docs => enriched_docs
        | .failed _ => [])).length ++ " raw documents from " ++ data_dir)] := by
  have key : ∀ (fs : List (String × IngestOutcome)) (acc : List Document × List LogMsg),
      fs.foldl (fun (acc : List Document × List LogMsg) file =>
        match file.2 with
        | .ok enriched_docs =>
          (acc.1 ++ enriched_docs,
            acc.2 ++ [.info ("Enriched " ++ file.1 ++ " with " ++
              toString enriched_docs.length ++ " table/text/image documents")])
        | .failed exc =>
          (acc.1, acc.2 ++ [.error ("Failed to load/enrich " ++ file.1 ++ ": " ++ exc)]))
        acc =
      (acc.1 ++ fs.flatMap (fun f =>
        match f.2 with
        | .ok enriched_docs => enriched_docs
        | .failed _ => []),
       acc.2 ++ fs.map (fun f =>
        match f.2 with
        | .ok enriched_docs => LogMsg.info ("Enriched " ++ f.1 ++ " with " ++
            toString enriched_docs.length ++ " table/text/image documents")
        | .failed exc => LogMsg.error ("Failed to load/enrich " ++ f.1 ++ ": " ++ exc))) := by
    intro fs
    induction fs with
    | nil => intro acc; simp
    | cons f rest ih =>
      intro acc
      cases hf : f.2 with
      | ok enriched_docs =>
        simp only [List.foldl_cons, hf, ih, List.flatMap_cons, List.map_cons]
        simp [List.append_assoc]
      | failed exc =>
        simp only [List.foldl_cons, hf, ih, List.flatMap_cons, List.map_cons]
        simp [List.append_assoc]
  constructor
  · simp only [load_documents]
    rw [key files ([], [])]
    simp
  · simp only [load_documents]
    rw [key files ([], [])]
    simp

/-- C8, as stated, fails on the counts clause: in a run with one
processed and one failed document, the emitted log lines are exactly the
two per-file lines and the final unit-count line, none of which contains
the digit of either count (1 processed, 1 failed) — no processed/failed
document counts are reported. -/
theorem C8_counts_counterexample :
    (load_documents filesW "dir").1 =
      [{ page_content := "u-one", metadata := [] },
       { page_content := "u-two", metadata := [] }] ∧
    (load_documents filesW "dir").2 =
      [LogMsg.info "Enriched a.pdf with 2 table/text/image documents",
       LogMsg.error "Failed to load/enrich b.pdf: io error",
       LogMsg.info " Loaded 2 raw documents from dir"] ∧
    ((load_documents filesW "dir").2.all
      (fun l => !(strContains (LogMsg.msg l) "1"))) = true := by
  refine ⟨by decide, by decide, by decide⟩

/-- C9: `ensure_weaviate_collection` is idempotent: a second call after
a successful one changes nothing, an existing collection is left
untouched, and an absent collection is created with the fixed schema and
the cosine vector-distance metric. -/
theorem C9_ensure_collection_idempotent (s : WeaviateState) (name : String) :
    ensure_weaviate_collection (ensure_weaviate_collection s name) name =
      ensure_weaviate_collection s name ∧
    ((weaviateListAll s).contains name = true → ensure_weaviate_collection s name = s) ∧
    ((weaviateListAll s).contains name = false →
      (ensure_weaviate_collection s name).lookup name =
        some { description := "Efsora document collection"
               properties := [("content", "TEXT"), ("source", "TEXT")]
               distance_metric := "cosine" }) := by
  have hpresent : ∀ (h : (weaviateListAll s).contains name = true),
      ensure_weaviate_collection s name = s := by
    intro h
    have hm : name ∈ weaviateListAll s := by simpa using h
    simp [ensure_weaviate_collection, hm]
  refine ⟨?_, hpresent, ?_⟩
  · by_cases h : (weaviateListAll s).contains name = true
    · rw [hpresent h, hpresent h]
    · have hm' : name ∉ weaviateListAll s := by simpa using h
      have hnew : ensure_weaviate_collection s name =
          weaviateCreate s name "Efsora document collection"
            [("content", "TEXT"), ("source", "TEXT")] := by
        simp [ensure_weaviate_collection, hm']
      rw [hnew]
      have hmem2 : name ∈ weaviateListAll (weaviateCreate s name
          "Efsora document collection" [("content", "TEXT"), ("source", "TEXT")]) := by
        simp [weaviateCreate, weaviateListAll]
      simp [ensure_weaviate_collection, hmem2]
  · intro h
    have hnone : s.lookup name = Option.none := by
      clear hpresent
      induction s with
      | nil => rfl
      | cons kv rest ih =>
        obtain ⟨k, v⟩ := kv
        simp only [weaviateListAll, List.map_cons, List.contains_cons,
          Bool.or_eq_false_iff] at h
        simp [List.lookup, h.1, ih h.2]
    have hm' : name ∉ weaviateListAll s := by simpa using h
    have h' : ensure_weaviate_collection s name =
        s ++ [(name, { description := "Efsora document collection"
                       properties := [("content", "TEXT"), ("source", "TEXT")]
                       distance_metric := "cosine" })] := by
      simp [ensure_weaviate_collection, hm', weaviateCreate]
    rw [h', List.lookup_append, hnone]
    simp [List.lookup]

/-- C9 witness: ensuring a collection on an empty instance creates it
with the cosine metric, and ensuring again is a no-op. -/
theorem C9_ensure_collection_witness :
    ensure_weaviate_collection (ensure_weaviate_collection [] "Documents") "Documents" =
      ensure_weaviate_collection [] "Documents" ∧
    (weaviateListAll []).contains "Documents" = false ∧
    (ensure_weaviate_collection [] "Documents").lookup "Documents" =
      some { description := "Efsora document collection"
             properties := [("content", "TEXT"), ("source", "TEXT")]
             distance_metric := "cosine" } :=
  ⟨(C9_ensure_collection_idempotent [] "Documents").1, by decide,
   (C9_ensure_collection_idempotent [] "Documents").2.2 (by decide)⟩

/-- C10 (amended): every chunk's metadata is exactly the single key
`source`; the batch chunker sets it to the owning unit's own `source`
metadata (default `"unknown"`), while the streaming chunker forces the
caller-supplied source name onto every chunk; all other metadata of the
input unit is discarded. -/
theorem C10_chunk_metadata_amended (chunker : SemChunk) (docs : List Document)
    (source_name : String) :
    build_semantic_chunks_per_doc chunker docs =
      docs.flatMap (fun doc => (chunker [(doc.page_content, doc.metadata)]).map
        (fun merged => { page_content := merged.1
                         metadata := [("source",
                           metaGetD doc.metadata "source" (.str "unknown"))] })) ∧
    chunk_document chunker docs source_name =
      docs.flatMap (fun doc => (chunker [(doc.page_content, doc.metadata)]).map
        (fun merged => { page_content := merged.1
                         metadata := [("source", MetaVal.str source_name)] })) := by
  constructor
  · have key : ∀ (ds : List Document) (acc : List Document),
        ds.foldl (fun split_docs doc =>
          split_docs ++ (chunker [(doc.page_content, doc.metadata)]).map
            (fun merged => { page_content := merged.1
                             metadata := [("source",
                               metaGetD doc.metadata "source" (.str "unknown"))] })) acc =
        acc ++ ds.flatMap (fun doc => (chunker [(doc.page_content, doc.metadata)]).map
          (fun merged => { page_content := merged.1
                           metadata := [("source",
                             metaGetD doc.metadata "source" (.str "unknown"))] })) := by
      intro ds
      induction ds with
      | nil => intro acc; simp
      | cons d rest ih =>
        intro acc
        simp only [List.foldl_cons, ih, List.flatMap_cons, List.append_assoc]
    simpa [build_semantic_chunks_per_doc] using key docs []
  · have key : ∀ (ds : List Document) (acc : List Document),
        ds.foldl (fun split_docs doc =>
          split_docs ++ (chunker [(doc.page_content, doc.metadata)]).map
            (fun merged => { page_content := merged.1
                             metadata := [("source", MetaVal.str source_name)] })) acc =
        acc ++ ds.flatMap (fun doc => (chunker [(doc.page_content, doc.metadata)]).map
          (fun merged => { page_content := merged.1
                           metadata := [("source", MetaVal.str source_name)] })) := by
      intro ds
      induction ds with
      | nil => intro acc; simp
      | cons d rest ih =>
        intro acc
        simp only [List.foldl_cons, ih, List.flatMap_cons, List.append_assoc]
    simpa [chunk_document] using key docs []

/-- C10, as stated, fails for the streaming chunker: a chunk of a unit
whose own `source` is `orig.pdf` gets `source = other.pdf` (the
caller-supplied name), not the owning unit's source. -/
theorem C10_source_counterexample :
    (chunk_document chunkerId [docInC10] "other.pdf").map
      (fun c => metaLookup c.metadata "source") = [some (MetaVal.str "other.pdf")] ∧
    metaLookup docInC10.metadata "source" = some (MetaVal.str "orig.pdf") ∧
    ¬ (MetaVal.str "other.pdf" = MetaVal.str "orig.pdf") := by
  refine ⟨by decide, by decide, by decide⟩
